import Mathlib

/-!
# ImageConverter: the queue controller of `src/index.js`

A shallow embedding of the single controller object `index` of `src/index.js`
and of the browser primitives it drives (timers, file readers, image decodes),
followed by theorems about intake, removal, conversion naming, validation,
label truncation and the slideshow timers.

Modelling conventions.

* A JavaScript string is the list of its UTF-16 code units (`JSString`), so that
  `.length`, `.slice` and `.trim` mean what they mean in the source.
* `index` and the DOM properties it writes are one record `State`; every event
  handler is a function on `State`.  A handler returns `none` when it throws:
  the only throwing call is `reader.readAsDataURL(undefined)` in `showPreview`.
* `setInterval` / `setTimeout` hand out positive handles that are never reused;
  the live timers of the window are the list `State.timers`.
* `listener.add(target, type, fn)` and `strToEl(html)` are helpers that are not
  part of `src/index.js`; they are read as `target.addEventListener(type, fn)`
  and as "parse `html` as HTML and return its element".  The DOM keeps the
  markup that `updateQueue` wrote for each entry; the text an entry then
  displays is read from it by `htmlText`.
-/

namespace ImageConverter

/-! ## JavaScript strings -/

/-- A JavaScript string: the list of its UTF-16 code units. -/
abbrev JSString := List Nat

/-- UTF-16 encoding of one Unicode scalar value. -/
def utf16Char (c : Char) : List Nat :=
  if c.toNat < 65536 then [c.toNat]
  else [55296 + (c.toNat - 65536) / 1024, 56320 + (c.toNat - 65536) % 1024]

/-- The JavaScript string written as the literal `s` in the source. -/
def js (s : String) : JSString := s.toList.flatMap utf16Char

/-- Decimal rendering of a natural number, as produced by a template literal. -/
def numToString (n : Nat) : JSString := (Nat.repr n).toList.map Char.toNat

/-- ECMAScript `ToIntegerOrInfinity`-relative index used by `slice`:
a negative index counts from the end, everything is clamped to `[0, len]`. -/
def relativeIndex (len : Nat) (i : Int) : Nat :=
  if i < 0 then (max ((len : Int) + i) 0).toNat else min i.toNat len

/-- Method `String.prototype.slice(start, end)`; `stop = none` is an omitted `end`. -/
def slice (s : JSString) (start : Int) (stop : Option Int) : JSString :=
  let len := s.length
  let lo := relativeIndex len start
  let hi := match stop with
    | none => len
    | some e => relativeIndex len e
  (s.drop lo).take (hi - lo)

/-- ECMAScript `WhiteSpace` and `LineTerminator` code units, the ones `trim` strips. -/
def isTrimmable (c : Nat) : Bool :=
  c == 9 || c == 10 || c == 11 || c == 12 || c == 13 || c == 32 || c == 160 ||
  c == 5760 || (8192 ≤ c && c ≤ 8202) || c == 8232 || c == 8233 || c == 8239 ||
  c == 8287 || c == 12288 || c == 65279

/-- Method `String.prototype.trim()`. -/
def trim (s : JSString) : JSString :=
  ((s.dropWhile isTrimmable).reverse.dropWhile isTrimmable).reverse

/-- Method `Array.prototype.splice(start, deleteCount)` for non-negative
arguments: the array as it is left after the call. -/
def splice {α : Type} (a : List α) (start deleteCount : Nat) : List α :=
  let actualStart := min start a.length
  let actualDeleteCount := min deleteCount (a.length - actualStart)
  a.take actualStart ++ a.drop (actualStart + actualDeleteCount)

/-! ## Files and the pure parts of the controller -/

/-- A `File`: its name, its MIME type, and an identifier standing for its bytes. -/
structure File where
  name : JSString
  type : JSString
  blob : Nat
deriving DecidableEq, Repr

/-- Method `index.isValidImageType(type)`. -/
def isValidImageType (type : JSString) : Bool :=
  [js "image/png", js "image/jpeg", js "image/jpg", js "image/webp"].contains type

/-- The filter applied to a batch by the `change` and `drop` handlers. -/
def validFiles (files : List File) : List File :=
  files.filter (fun file => isValidImageType file.type)

/-- The constant `maxChars` of `updateQueue`. -/
def maxChars : Nat := 35

/-- The value of the local `filename` of `updateQueue` for a file named `name`. -/
def displayFilename (name : JSString) : JSString :=
  if name.length > maxChars then
    let keep : Nat := (maxChars - 3) / 2
    slice name 0 (some (keep : Int)) ++ js "..." ++ slice name (-(keep : Int)) none
  else name

/-- The markup `${i + 1}. ${filename}` that `updateQueue` puts between `<span>`
and `</span>` of entry `i`.  It is interpolated as it is, without escaping, and
`strToEl` parses it as HTML: what is displayed is the text the parser reads from
it (`htmlText`). -/
def entryLabel (i : Nat) (file : File) : JSString :=
  numToString (i + 1) ++ js ". " ++ displayFilename file.name

/-! ## Conversion: the closures created by `convertAllImages` -/

/-- How the asynchronous pipeline of one queued item ends: the image fires
`error`, or it fires `load` and `canvas.toBlob` later calls back with a blob or
with `null`. -/
inductive Outcome where
  | decodeError
  | decoded (blob : Option Nat)
deriving DecidableEq, Repr

/-- True when both the decode and the encode of the item succeed. -/
def Outcome.succeeded : Outcome → Bool
  | .decoded (some _) => true
  | _ => false

/-- True when the decode of the item fails. -/
def Outcome.decodeFailed : Outcome → Bool
  | .decodeError => true
  | _ => false

/-- What the user observes from a conversion. -/
inductive Effect where
  | alert (message : JSString)
  | download (filename : JSString)
deriving DecidableEq, Repr

/-- What one iteration of the `forEach` of `convertAllImages` closes over. -/
structure ConvTask where
  file : File
  idx : Nat
  format : JSString
  nameBase : JSString
deriving DecidableEq, Repr

/-- JavaScript `a || b` on strings: the empty string is the only falsy one. -/
def orElse (a b : JSString) : JSString := if a = [] then b else a

/-- The local `nameBase` of `convertAllImages`. -/
def nameBaseOf (nameInputValue : JSString) : JSString :=
  orElse (trim nameInputValue) (js "ConvertedImage")

/-- The local `mime` of the `load` handler. -/
def ConvTask.mime (t : ConvTask) : JSString :=
  if t.format = js "jpeg" then js "image/jpeg" else js "image/" ++ t.format

/-- The local `extension` of the `load` handler. -/
def ConvTask.extension (t : ConvTask) : JSString := t.format

/-- The value given to `a.download`. -/
def ConvTask.downloadName (t : ConvTask) : JSString :=
  t.nameBase ++ js "_" ++ numToString (t.idx + 1) ++ js "." ++ t.extension

/-- The message of the `error` handler of the image. -/
def ConvTask.errorMessage (t : ConvTask) : JSString :=
  js "Error: The image with ID " ++ numToString (t.idx + 1) ++ js " is invalid."

/-- The `error` handler of the image. -/
def ConvTask.onError (t : ConvTask) : List Effect := [Effect.alert t.errorMessage]

/-- The callback given to `canvas.toBlob`. -/
def ConvTask.onBlob (t : ConvTask) (blob : Option Nat) : List Effect :=
  match blob with
  | none => []
  | some _ => [Effect.download t.downloadName]

/-- Everything the pipeline of one item produces, given how it ends. -/
def ConvTask.settle (t : ConvTask) : Outcome → List Effect
  | .decodeError => t.onError
  | .decoded blob => t.onBlob blob

/-- The closures of `imageQueue.forEach((file, idx) => ...)` in `convertAllImages`. -/
def conversionTasks (imageQueue : List File) (format nameInputValue : JSString) :
    List ConvTask :=
  imageQueue.mapIdx (fun idx file =>
    { file := file, idx := idx, format := format, nameBase := nameBaseOf nameInputValue })

/-- The effects of a whole conversion when the pipelines end in the order
`order` (positions in the queue) and item `k` ends with `outcome k`. -/
def runConversions (tasks : List ConvTask) (outcome : Nat → Outcome) (order : List Nat) :
    List Effect :=
  order.flatMap (fun k =>
    match tasks[k]? with
    | none => []
    | some t => t.settle (outcome k))

/-- The download names among some effects, in order. -/
def downloadsOf (effects : List Effect) : List JSString :=
  effects.filterMap (fun e =>
    match e with
    | .download filename => some filename
    | .alert _ => none)

/-- The alert messages among some effects, in order. -/
def alertsOf (effects : List Effect) : List JSString :=
  effects.filterMap (fun e =>
    match e with
    | .alert message => some message
    | .download _ => none)

/-! ## Controller state -/

/-- The callback a live timer will run. -/
inductive TimerKind where
  | advance
  | resume
  | fade (result : File)
  | revoke
deriving DecidableEq, Repr

/-- One entry of the window's map of live timers. -/
structure Timer where
  handle : Nat
  kind : TimerKind
  delay : Nat
deriving DecidableEq, Repr

/-- Value of `imgPreview.src`: the empty string or the data URL of a file. -/
inductive Src where
  | empty
  | dataURL (file : File)
deriving DecidableEq, Repr

/-- A `FileReader.readAsDataURL` call whose `load` has not fired yet, with the
handler that is waiting for it. -/
inductive Read where
  | thumbnail (file : File)
  | firstOfBatch (file : File)
  | preview (file : File) (smooth : Bool)
deriving DecidableEq, Repr

/-- One `DataTransferItem` of a `dragenter` event. -/
structure DragItem where
  kind : JSString
  type : JSString
deriving DecidableEq, Repr

/-- The DOM properties the controller reads or writes. -/
structure Dom where
  imageInputButtonText : JSString
  imgPreviewSrc : Src
  imgPreviewDisplay : JSString
  imgPreviewTransition : JSString
  imgPreviewOpacity : JSString
  dragOverlayDisplay : JSString
  queueDisplay : JSString
  /-- For each entry of the visible queue, the markup between `<span>` and
  `</span>` as `updateQueue` wrote it. -/
  queueEntries : List JSString
  nameInputValue : JSString
  formatValue : JSString
deriving DecidableEq, Repr

/-- The object `index`, the DOM it drives, and the browser state behind it. -/
structure State where
  dragCounter : Int
  imageQueue : List File
  slideshowInterval : Option Nat
  slideshowIndex : Nat
  slideshowResumeTimeout : Option Nat
  isMouseOverQueueItem : Bool
  dom : Dom
  timers : List Timer
  lastHandle : Nat
  pendingReads : List Read
  conversions : List ConvTask
  alerts : List JSString
  downloads : List JSString
deriving DecidableEq, Repr

/-- The state when `index.init()` returns, over the DOM of the page. -/
def initial (dom : Dom) : State :=
  { dragCounter := 0
    imageQueue := []
    slideshowInterval := none
    slideshowIndex := 0
    slideshowResumeTimeout := none
    isMouseOverQueueItem := false
    dom := dom
    timers := []
    lastHandle := 0
    pendingReads := []
    conversions := []
    alerts := []
    downloads := [] }

/-- JavaScript truthiness of a timer handle field: `null` and `0` are falsy. -/
def truthy : Option Nat → Bool
  | none => false
  | some h => h != 0

/-- Calls `setInterval(cb, delay)` and `setTimeout(cb, delay)`: a fresh positive handle. -/
def setTimer (s : State) (kind : TimerKind) (delay : Nat) : Nat × State :=
  (s.lastHandle + 1,
   { s with
     timers := s.timers ++ [{ handle := s.lastHandle + 1, kind := kind, delay := delay }]
     lastHandle := s.lastHandle + 1 })

/-- Calls `clearInterval(h)` and `clearTimeout(h)`; they share one map of handles. -/
def clearTimer (s : State) (h : Option Nat) : State :=
  match h with
  | none => s
  | some h => { s with timers := s.timers.filter (fun t => t.handle != h) }

/-- Call `alert(message)`. -/
def alert (s : State) (message : JSString) : State :=
  { s with alerts := s.alerts ++ [message] }

/-- True for the advance timer of the slideshow. -/
def Timer.isAdvance (t : Timer) : Bool := t.kind == TimerKind.advance

/-- True for the resume timer set on `mouseleave`. -/
def Timer.isResume (t : Timer) : Bool := t.kind == TimerKind.resume

/-- The live advance timers. -/
def State.advanceTimers (s : State) : List Timer := s.timers.filter Timer.isAdvance

/-- The live resume timers. -/
def State.resumeTimers (s : State) : List Timer := s.timers.filter Timer.isResume

/-! ## The methods of `index` -/

/-- Method `index.showPreview(idx, smooth)`.  The file is read asynchronously;
`readAsDataURL(undefined)` throws when `idx` is not a position of the queue. -/
def showPreview (s : State) (idx : Nat) (smooth : Bool) : Option State :=
  match s.imageQueue[idx]? with
  | none => none
  | some file => some { s with pendingReads := s.pendingReads ++ [Read.preview file smooth] }

/-- Method `index.updateQueue()`: rebuilds every entry of the visible list, each
with a thumbnail read and with handlers that capture its position `i`. -/
def updateQueue (s : State) : State :=
  { s with
    dom := { s.dom with
      queueDisplay := if s.imageQueue.length > 0 then js "flex" else js "none"
      queueEntries := s.imageQueue.mapIdx entryLabel }
    pendingReads := s.pendingReads ++ s.imageQueue.map Read.thumbnail }

/-- Method `index.startSlideshow()`. -/
def startSlideshow (s : State) : Option State :=
  let s1 :=
    if truthy s.slideshowInterval then
      { clearTimer s s.slideshowInterval with slideshowInterval := none }
    else s
  if s1.imageQueue.length = 0 then
    some { s1 with dom := { s1.dom with imgPreviewSrc := Src.empty, imgPreviewDisplay := js "none" } }
  else if s1.imageQueue.length = 1 then
    showPreview s1 0 false
  else
    let s2 := { s1 with slideshowIndex := 0 }
    match showPreview s2 s2.slideshowIndex true with
    | none => none
    | some s3 =>
      let (handle, s4) := setTimer s3 TimerKind.advance 2000
      some { s4 with slideshowInterval := some handle }

/-- The callback given to `setInterval` by `startSlideshow`. -/
def slideshowTick (s : State) : Option State :=
  if s.imageQueue.length ≤ 1 then
    some { clearTimer s s.slideshowInterval with slideshowInterval := none }
  else
    let s1 := { s with slideshowIndex := (s.slideshowIndex + 1) % s.imageQueue.length }
    showPreview s1 s1.slideshowIndex true

/-- Method `index.convertAllImages()`: one decode is started per queued item. -/
def convertAllImages (s : State) : State :=
  { s with
    conversions :=
      s.conversions ++ conversionTasks s.imageQueue s.dom.formatValue s.dom.nameInputValue }

/-! ## The event handlers registered by `init` and by `updateQueue` -/

/-- The part shared by the `change` and `drop` handlers once the valid files of
the batch are known to be non-empty. -/
def enqueue (s : State) (files : List File) (h : 0 < files.length) : Option State :=
  let s1 :=
    { s with
      dom := { s.dom with imageInputButtonText := js "Upload more image(s)" }
      imageQueue := s.imageQueue ++ files }
  match startSlideshow (updateQueue s1) with
  | none => none
  | some s2 => some { s2 with pendingReads := s2.pendingReads ++ [Read.firstOfBatch files[0]] }

/-- The `change` handler of the file input; `picked` is `inputImage.files`. -/
def inputChange (s : State) (picked : List File) : Option State :=
  let files := validFiles picked
  if h : 0 < files.length then enqueue s files h else some s

/-- The `drop` handler of the body; `dropped` is `e.dataTransfer.files`. -/
def drop (s : State) (dropped : List File) : Option State :=
  let s1 := { s with dom := { s.dom with dragOverlayDisplay := js "none" } }
  if 0 < dropped.length then
    let files := validFiles dropped
    if h : 0 < files.length then enqueue s1 files h
    else some (alert s1 (js "Please drop valid PNG, JPG/JPEG or WEBP image files only."))
  else some s1

/-- The `click` handler of the convert button. -/
def convertClick (s : State) : State :=
  if s.imageQueue.length = 0 then
    alert s (js "Please upload/drag & drop one or more images of type (PNG, JPG/JPEG, WEBP).")
  else if (trim s.dom.nameInputValue).length > 250 then
    alert s (js "There is a 250-character limit on filenames. Please shorten the name.")
  else
    convertAllImages s

/-- The `dragenter` handler of the body; `items` is `e.dataTransfer.items`, or
`none` when there is no `dataTransfer`. -/
def dragenter (s : State) (items : Option (List DragItem)) : State :=
  let s1 := { s with dragCounter := s.dragCounter + 1 }
  match items with
  | some (item :: _) =>
    if item.kind = js "file" && isValidImageType item.type then
      { s1 with dom := { s1.dom with dragOverlayDisplay := js "flex" } }
    else s1
  | _ => s1

/-- The `dragleave` handler of the body. -/
def dragleave (s : State) : State :=
  let s1 := { s with dragCounter := s.dragCounter - 1 }
  if s1.dragCounter ≤ 0 then
    { s1 with dom := { s1.dom with dragOverlayDisplay := js "none" }, dragCounter := 0 }
  else s1

/-- The `keydown` handler of the document. -/
def keydown (s : State) (key : JSString) : State :=
  if key = js "Escape" then
    { s with dom := { s.dom with dragOverlayDisplay := js "none" }, dragCounter := 0 }
  else s

/-- The `click` handler of the remove button of entry `i`. -/
def removeClick (s : State) (i : Nat) : Option State :=
  let s1 := { s with imageQueue := splice s.imageQueue i 1 }
  match startSlideshow (updateQueue s1) with
  | none => none
  | some s2 =>
    if s2.imageQueue.length > 0 then
      showPreview s2 0 false
    else
      some { s2 with
        dom := { s2.dom with
          imgPreviewSrc := Src.empty
          imgPreviewDisplay := js "none"
          imageInputButtonText := js "Upload image(s)" } }

/-- The `mouseenter` handler of entry `i`. -/
def mouseenter (s : State) (i : Nat) : Option State :=
  let s1 := { s with isMouseOverQueueItem := true }
  match showPreview s1 i false with
  | none => none
  | some s2 =>
    let s3 :=
      if truthy s2.slideshowInterval then
        { clearTimer s2 s2.slideshowInterval with slideshowInterval := none }
      else s2
    let s4 :=
      if truthy s3.slideshowResumeTimeout then
        { clearTimer s3 s3.slideshowResumeTimeout with slideshowResumeTimeout := none }
      else s3
    some s4

/-- The `mouseleave` handler of an entry (it does not use the entry's position). -/
def mouseleave (s : State) : State :=
  let s1 := { s with isMouseOverQueueItem := false }
  let s2 := if truthy s1.slideshowResumeTimeout then clearTimer s1 s1.slideshowResumeTimeout else s1
  let (handle, s3) := setTimer s2 TimerKind.resume 2000
  { s3 with slideshowResumeTimeout := some handle }

/-- The callback given to `setTimeout` by the `mouseleave` handler. -/
def resumeCallback (s : State) : Option State :=
  if !s.isMouseOverQueueItem then startSlideshow s else some s

/-- The `load` handler of a pending `FileReader`. -/
def readerOnLoad (s : State) (r : Read) : State :=
  match r with
  | .thumbnail _ => s
  | .firstOfBatch file =>
    { s with dom := { s.dom with imgPreviewSrc := Src.dataURL file, imgPreviewDisplay := js "block" } }
  | .preview file smooth =>
    if smooth then
      let s1 :=
        { s with dom := { s.dom with
            imgPreviewTransition := js "opacity 0.5s", imgPreviewOpacity := js "0" } }
      (setTimer s1 (TimerKind.fade file) 500).2
    else
      { s with dom := { s.dom with
          imgPreviewTransition := js ""
          imgPreviewSrc := Src.dataURL file
          imgPreviewDisplay := js "block"
          imgPreviewOpacity := js "1" } }

/-- The callback given to `setTimeout` by the smooth branch of `showPreview`. -/
def fadeCallback (s : State) (result : File) : State :=
  { s with dom := { s.dom with
      imgPreviewSrc := Src.dataURL result
      imgPreviewDisplay := js "block"
      imgPreviewOpacity := js "1" } }

/-! ## Events and reachable states -/

/-- Everything that can happen to the page. -/
inductive Event where
  | inputChange (picked : List File)
  | convertClick
  | dragenter (items : Option (List DragItem))
  | dragleave
  | dragover
  | keydown (key : JSString)
  | drop (dropped : List File)
  | removeClick (i : Nat)
  | mouseenter (i : Nat)
  | mouseleave
  | timerFire (handle : Nat)
  | readerLoad (k : Nat)
  | imageSettled (k : Nat) (outcome : Outcome)
  | nameTyped (value : JSString)
  | formatSelected (value : JSString)
deriving DecidableEq, Repr

/-- A live timer fires.  An interval stays live; a timeout is live no more.  No
callback reads or clears its own handle, so the timeout is taken out of the map
before its callback runs. -/
def timerFire (s : State) (handle : Nat) : Option State :=
  match s.timers.find? (fun t => t.handle == handle) with
  | none => none
  | some t =>
    match t.kind with
    | .advance => slideshowTick s
    | .resume => resumeCallback (clearTimer s (some handle))
    | .fade result => some (fadeCallback (clearTimer s (some handle)) result)
    | .revoke => some (clearTimer s (some handle))

/-- The `k`-th pending read completes. -/
def readerLoad (s : State) (k : Nat) : Option State :=
  match s.pendingReads[k]? with
  | none => none
  | some r => some (readerOnLoad { s with pendingReads := s.pendingReads.eraseIdx k } r)

/-- The pipeline of the `k`-th pending conversion ends with `outcome`. -/
def imageSettled (s : State) (k : Nat) (outcome : Outcome) : Option State :=
  match s.conversions[k]? with
  | none => none
  | some t =>
    let s1 := { s with conversions := s.conversions.eraseIdx k }
    match outcome with
    | .decodeError => some (alert s1 t.errorMessage)
    | .decoded none => some s1
    | .decoded (some _) =>
      some (setTimer { s1 with downloads := s1.downloads ++ [t.downloadName] } TimerKind.revoke 100).2

/-- One event.  The result is `none` when the event cannot happen in `s`: the
entry, timer, read or conversion it names does not exist. -/
def step (s : State) : Event → Option State
  | .inputChange picked => inputChange s picked
  | .convertClick => some (convertClick s)
  | .dragenter items => some (dragenter s items)
  | .dragleave => some (dragleave s)
  | .dragover => some s
  | .keydown key => some (keydown s key)
  | .drop dropped => drop s dropped
  | .removeClick i => if i < s.imageQueue.length then removeClick s i else none
  | .mouseenter i => mouseenter s i
  | .mouseleave => some (mouseleave s)
  | .timerFire handle => timerFire s handle
  | .readerLoad k => readerLoad s k
  | .imageSettled k outcome => imageSettled s k outcome
  | .nameTyped value => some { s with dom := { s.dom with nameInputValue := value } }
  | .formatSelected value => some { s with dom := { s.dom with formatValue := value } }

/-- Runs a sequence of events. -/
def run (s : State) : List Event → Option State
  | [] => some s
  | e :: es =>
    match step s e with
    | none => none
    | some s1 => run s1 es

/-- The states the page can be in. -/
inductive Reachable : State → Prop where
  | init (dom : Dom) : Reachable (initial dom)
  | step {s s1 : State} (e : Event) : Reachable s → step s e = some s1 → Reachable s1

/-! ## What an entry displays -/

/-- Modelled from the spec: `strToEl` is not part of `src/index.js`, and the spec
leaves DOM construction to the platform, so the markup of an entry is read as the
HTML parser of the platform reads character data.  A code unit other than NUL,
CR, `&` and `<` stands for itself; the character reference `&amp;` stands for
`&`.  Every other use of `&`, and NUL, CR and `<`, are outside this model, which
then gives `none`. -/
def htmlText : JSString → Option JSString
  | [] => some []
  | 38 :: 97 :: 109 :: 112 :: 59 :: rest => (htmlText rest).map (fun text => 38 :: text)
  | c :: rest =>
    if c = 0 ∨ c = 13 ∨ c = 38 ∨ c = 60 then none
    else (htmlText rest).map (fun text => c :: text)

/-- True for a code unit that stands for itself wherever `updateQueue`
interpolates a file name: in the text of the `<span>` and in the double-quoted
`title` attribute.  The others are NUL, CR, `"`, `&` and `<`. -/
def plainInMarkup (c : Nat) : Bool :=
  c != 0 && c != 13 && c != 34 && c != 38 && c != 60

/-- The label displayed for entry `i` of the visible queue: the text of its
`<span>`. -/
def displayedLabel (s : State) (i : Nat) : Option JSString :=
  match s.dom.queueEntries[i]? with
  | none => none
  | some markup => htmlText markup

/-! ## Completion schedules of a conversion -/

/-- The place, in a list of pending conversions, of the one started for queue
position `i`. -/
def pendingIndex : List ConvTask → Nat → Option Nat
  | [], _ => none
  | t :: ts, i => if t.idx = i then some 0 else (pendingIndex ts i).map (fun k => k + 1)

/-- The pipeline of queue position `i` ends with `outcome i`: the event
`imageSettled` for its pending conversion.  The first `skip` pending conversions
are those of earlier clicks on the convert button; they are left alone. -/
def settleItem (outcome : Nat → Outcome) (skip : Nat) (s : State) (i : Nat) : Option State :=
  match pendingIndex (s.conversions.drop skip) i with
  | none => none
  | some k => step s (Event.imageSettled (skip + k) (outcome i))

/-- The pipelines of the queue positions in `order` end one after the other. -/
def settleInOrder (outcome : Nat → Outcome) (skip : Nat) : State → List Nat → Option State
  | s, [] => some s
  | s, i :: order =>
    match settleItem outcome skip s i with
    | none => none
    | some s1 => settleInOrder outcome skip s1 order

/-! ## A concrete page, for examples -/

/-- A page as the controller finds it when it loads: nothing previewed, an empty
name field, `png` selected. -/
def examplePage : Dom :=
  { imageInputButtonText := js "Upload image(s)"
    imgPreviewSrc := Src.empty
    imgPreviewDisplay := js "none"
    imgPreviewTransition := js ""
    imgPreviewOpacity := js "1"
    dragOverlayDisplay := js "none"
    queueDisplay := js "none"
    queueEntries := []
    nameInputValue := js ""
    formatValue := js "png" }

/-- A PNG file named `a.png`. -/
def fileA : File := { name := js "a.png", type := js "image/png", blob := 1 }

/-- A JPEG file named `b.jpg`. -/
def fileB : File := { name := js "b.jpg", type := js "image/jpeg", blob := 2 }

/-- A WEBP file named `c.webp`. -/
def fileC : File := { name := js "c.webp", type := js "image/webp", blob := 4 }

/-- A PNG file whose name is the eleven code units `a&amp;b.png`. -/
def fileAmp : File := { name := js "a&amp;b.png", type := js "image/png", blob := 6 }

/-- A PNG file whose name has 40 code units. -/
def fileLong : File :=
  { name := js "abcdefghijklmnopqrstuvwxyz0123456789.png", type := js "image/png", blob := 7 }

/-- A PNG file whose name has 22 characters, 18 of them outside the Basic
Multilingual Plane, and so 40 code units. -/
def fileAstral : File :=
  { name := js "😀😀😀😀😀😀😀😀😀😀😀😀😀😀😀😀😀😀.png", type := js "image/png", blob := 8 }

/-- A text file, which the controller does not accept. -/
def fileTxt : File := { name := js "notes.txt", type := js "text/plain", blob := 3 }

/-- The state of the example page after `a.png` and `b.jpg` were dropped on it:
both are queued, the slideshow cycles on timer 1. -/
def twoQueued : State :=
  { dragCounter := 0
    imageQueue := [fileA, fileB]
    slideshowInterval := some 1
    slideshowIndex := 0
    slideshowResumeTimeout := none
    isMouseOverQueueItem := false
    dom := { examplePage with
      imageInputButtonText := js "Upload more image(s)"
      queueDisplay := js "flex"
      queueEntries := [js "1. a.png", js "2. b.jpg"] }
    timers := [{ handle := 1, kind := TimerKind.advance, delay := 2000 }]
    lastHandle := 1
    pendingReads :=
      [Read.thumbnail fileA, Read.thumbnail fileB, Read.preview fileA true,
        Read.firstOfBatch fileA]
    conversions := []
    alerts := []
    downloads := [] }

/-! ## Proof devices

The two halves of `startSlideshow`, the matching prologue of the `mouseenter`
handler, and the invariants that link the handle fields of `index` to the live
timers of the window. -/

/-- The state after the leading `if (index.slideshowInterval) { ... }` block of
`startSlideshow` and of the `mouseenter` handler. -/
def cancelAdvance (s : State) : State :=
  if truthy s.slideshowInterval then
    { clearTimer s s.slideshowInterval with slideshowInterval := none }
  else s

/-- The state after the `if (index.slideshowResumeTimeout) { ... }` block of the
`mouseenter` handler. -/
def cancelResume (s : State) : State :=
  if truthy s.slideshowResumeTimeout then
    { clearTimer s s.slideshowResumeTimeout with slideshowResumeTimeout := none }
  else s

/-- What `startSlideshow` does after its leading block, by the shape of the queue. -/
def startFrom (c : State) : Option State :=
  match c.imageQueue with
  | [] =>
    some { c with dom := { c.dom with imgPreviewSrc := Src.empty, imgPreviewDisplay := js "none" } }
  | [file] => some { c with pendingReads := c.pendingReads ++ [Read.preview file false] }
  | file :: _ :: _ =>
    some { c with
      slideshowIndex := 0
      pendingReads := c.pendingReads ++ [Read.preview file true]
      timers := c.timers ++
        [{ handle := c.lastHandle + 1, kind := TimerKind.advance, delay := 2000 }]
      lastHandle := c.lastHandle + 1
      slideshowInterval := some (c.lastHandle + 1) }

/-- The live timers are tracked by the handle fields: handles are positive,
distinct and already issued, every live advance timer is the one named by
`slideshowInterval`, every live resume timer the one named by
`slideshowResumeTimeout`. -/
structure TimersTracked (timers : List Timer) (lastHandle : Nat)
    (interval resume : Option Nat) : Prop where
  pos : ∀ t ∈ timers, 0 < t.handle
  le : ∀ t ∈ timers, t.handle ≤ lastHandle
  nodup : (timers.map Timer.handle).Nodup
  advance : ∀ t ∈ timers, t.kind = TimerKind.advance → interval = some t.handle
  resume : ∀ t ∈ timers, t.kind = TimerKind.resume → resume = some t.handle

/-- The timer invariant of a controller state. -/
def State.Tracked (s : State) : Prop :=
  TimersTracked s.timers s.lastHandle s.slideshowInterval s.slideshowResumeTimeout

/-- The index invariant of a controller state: while the queue can cycle, the
slideshow index is a position of the queue. -/
def State.IndexOK (s : State) : Prop :=
  2 ≤ s.imageQueue.length → s.slideshowIndex < s.imageQueue.length

/-- The fields read by the timer and index invariants, and the hover flag, are
the same in both states. -/
structure SameCore (s s1 : State) : Prop where
  timers : s1.timers = s.timers
  lastHandle : s1.lastHandle = s.lastHandle
  slideshowInterval : s1.slideshowInterval = s.slideshowInterval
  slideshowResumeTimeout : s1.slideshowResumeTimeout = s.slideshowResumeTimeout
  imageQueue : s1.imageQueue = s.imageQueue
  slideshowIndex : s1.slideshowIndex = s.slideshowIndex
  isMouseOverQueueItem : s1.isMouseOverQueueItem = s.isMouseOverQueueItem

/-- True for every event but a pointer entering an entry. -/
def Event.notMouseenter : Event → Bool
  | .mouseenter _ => false
  | _ => true

/-! ## Strings, labels and `splice` -/

theorem slice_head (s : JSString) (k : Nat) (h : k ≤ s.length) :
    slice s 0 (some (k : Int)) = s.take k := by
  have hk : ¬ ((k : Int) < 0) := by omega
  simp [slice, relativeIndex, hk, Nat.min_eq_left h]

theorem slice_tail (s : JSString) (k : Nat) (hk : 0 < k) (h : k ≤ s.length) :
    slice s (-(k : Int)) none = s.drop (s.length - k) := by
  have hneg : (-(k : Int)) < 0 := by omega
  have hlo : (max ((s.length : Int) + -(k : Int)) 0).toNat = s.length - k := by omega
  simp only [slice, relativeIndex, hneg, if_true, hlo]
  apply List.take_of_length_le
  simp

theorem splice_one {α : Type} (a : List α) (i : Nat) (h : i < a.length) :
    splice a i 1 = a.eraseIdx i := by
  have h1 : min i a.length = i := Nat.min_eq_left (Nat.le_of_lt h)
  have h2 : min 1 (a.length - i) = 1 := by omega
  simp [splice, h1, h2, List.eraseIdx_eq_take_drop_succ]

/-- The name that `updateQueue` writes into the markup of an entry is the file
name itself when it has at most 35 code units; a longer name is written as its
first 16 code units, then `...`, then its last 16 code units, 35 code units in
all.  The markup of the entry is this name after the entry's 1-based position. -/
theorem displayFilename_spec (name : JSString) :
    (name.length ≤ 35 → displayFilename name = name) ∧
    (35 < name.length →
      displayFilename name = name.take 16 ++ js "..." ++ name.drop (name.length - 16) ∧
      (displayFilename name).length = 35) ∧
    (∀ (i : Nat) (file : File), file.name = name →
      entryLabel i file = numToString (i + 1) ++ js ". " ++ displayFilename name) := by
  refine ⟨?_, ?_, ?_⟩
  · intro h
    have : ¬ name.length > maxChars := by simp only [maxChars]; omega
    simp [displayFilename, this]
  · intro h
    have hgt : name.length > maxChars := by simp only [maxChars]; omega
    have hk : (maxChars - 3) / 2 = 16 := by decide
    have e : displayFilename name =
        name.take 16 ++ js "..." ++ name.drop (name.length - 16) := by
      simp only [displayFilename, hgt, if_true, hk]
      rw [slice_head name 16 (by omega), slice_tail name 16 (by omega) (by omega)]
    refine ⟨e, ?_⟩
    rw [e]
    have h3 : (js "...").length = 3 := by decide
    simp only [List.length_append, List.length_take, List.length_drop, h3]
    omega
  · intro i file hf
    simp [entryLabel, hf]

/-- A 40-unit name is written as 16 + 3 + 16 code units. -/
theorem displayFilename_examples :
    displayFilename (js "abcdefghijklmnopqrstuvwxyz0123456789.png") =
      js "abcdefghijklmnop...yz0123456789.png" ∧
    (displayFilename (js "abcdefghijklmnopqrstuvwxyz0123456789.png")).length = 35 ∧
    displayFilename (js "cat.png") = js "cat.png" := by
  have h := displayFilename_spec (js "abcdefghijklmnopqrstuvwxyz0123456789.png")
  have h2 := (displayFilename_spec (js "cat.png")).1 (by decide)
  obtain ⟨e, l⟩ := h.2.1 (by decide)
  refine ⟨?_, l, h2⟩
  rw [e]
  decide

/-! ## Conversion -/

theorem conversionTasks_getElem? (queue : List File) (format template : JSString) (i : Nat) :
    (conversionTasks queue format template)[i]? =
      (queue[i]?).map (fun file =>
        { file := file, idx := i, format := format, nameBase := nameBaseOf template }) := by
  simp [conversionTasks, List.getElem?_mapIdx]

/-- The effects of the pipeline of the item at position `i`, spelled out. -/
theorem runConversions_eq (queue : List File) (format template : JSString)
    (outcome : Nat → Outcome) (l : List Nat) (hl : ∀ i ∈ l, i < queue.length) :
    runConversions (conversionTasks queue format template) outcome l =
      l.flatMap (fun i =>
        match outcome i with
        | .decodeError =>
          [Effect.alert (js "Error: The image with ID " ++ numToString (i + 1) ++ js " is invalid.")]
        | .decoded none => []
        | .decoded (some _) =>
          [Effect.download
            (nameBaseOf template ++ js "_" ++ numToString (i + 1) ++ js "." ++ format)]) := by
  unfold runConversions
  apply List.flatMap_congr
  intro i hi
  have hlt := hl i hi
  rw [conversionTasks_getElem?, List.getElem?_eq_getElem hlt]
  rcases outcome i with _ | _ | _ <;>
    simp [ConvTask.settle, ConvTask.onError, ConvTask.onBlob, ConvTask.errorMessage,
      ConvTask.downloadName, ConvTask.extension]

theorem downloadsOf_flatMap (l : List Nat) (outcome : Nat → Outcome)
    (a d : Nat → JSString) :
    downloadsOf (l.flatMap (fun i =>
        match outcome i with
        | .decodeError => [Effect.alert (a i)]
        | .decoded none => []
        | .decoded (some _) => [Effect.download (d i)])) =
      (l.filter (fun i => (outcome i).succeeded)).map d := by
  induction l with
  | nil => rfl
  | cons i l ih =>
    unfold downloadsOf at ih ⊢
    rw [List.flatMap_cons, List.filterMap_append, ih]
    rcases h : outcome i with _ | _ | _ <;> simp [h, Outcome.succeeded]

theorem alertsOf_flatMap (l : List Nat) (outcome : Nat → Outcome)
    (a d : Nat → JSString) :
    alertsOf (l.flatMap (fun i =>
        match outcome i with
        | .decodeError => [Effect.alert (a i)]
        | .decoded none => []
        | .decoded (some _) => [Effect.download (d i)])) =
      (l.filter (fun i => (outcome i).decodeFailed)).map a := by
  induction l with
  | nil => rfl
  | cons i l ih =>
    unfold alertsOf at ih ⊢
    rw [List.flatMap_cons, List.filterMap_append, ih]
    rcases h : outcome i with _ | _ | _ <;> simp [h, Outcome.decodeFailed]

theorem runConversions_perm (tasks : List ConvTask) (outcome : Nat → Outcome)
    {order order1 : List Nat} (h : order.Perm order1) :
    (runConversions tasks outcome order).Perm (runConversions tasks outcome order1) :=
  List.Perm.flatMap_right _ h

theorem downloads_in_queue_order (queue : List File) (format template : JSString)
    (outcome : Nat → Outcome) :
    downloadsOf (runConversions (conversionTasks queue format template) outcome
        (List.range queue.length)) =
      ((List.range queue.length).filter (fun i => (outcome i).succeeded)).map (fun i =>
        nameBaseOf template ++ js "_" ++ numToString (i + 1) ++ js "." ++ format) := by
  rw [runConversions_eq queue format template outcome _ (fun i hi => List.mem_range.mp hi)]
  exact downloadsOf_flatMap _ outcome _ _

theorem alerts_in_queue_order (queue : List File) (format template : JSString)
    (outcome : Nat → Outcome) :
    alertsOf (runConversions (conversionTasks queue format template) outcome
        (List.range queue.length)) =
      ((List.range queue.length).filter (fun i => (outcome i).decodeFailed)).map (fun i =>
        js "Error: The image with ID " ++ numToString (i + 1) ++ js " is invalid.") := by
  rw [runConversions_eq queue format template outcome _ (fun i hi => List.mem_range.mp hi)]
  exact alertsOf_flatMap _ outcome _ _

/-- Claim C3 (amended). For every queue, format and filename template, and for
every order in which the per-item pipelines complete, the downloads triggered by
`convertAllImages` are exactly one `<base>_<idx+1>.<format>` for each position
`idx` whose decode and encode succeed, where `base` is the template with leading
and trailing whitespace trimmed, or `ConvertedImage` when the trimmed template is
empty; the name depends on the position only. -/
theorem convertAllImages_download_names (queue : List File) (format template : JSString)
    (outcome : Nat → Outcome) (order : List Nat)
    (horder : order.Perm (List.range queue.length)) :
    (downloadsOf (runConversions (conversionTasks queue format template) outcome order)).Perm
      (((List.range queue.length).filter (fun i => (outcome i).succeeded)).map (fun i =>
        (if trim template = [] then js "ConvertedImage" else trim template)
          ++ js "_" ++ numToString (i + 1) ++ js "." ++ format)) ∧
    (∀ s : State, s.imageQueue = queue → s.dom.formatValue = format →
      s.dom.nameInputValue = template →
      (convertAllImages s).conversions =
        s.conversions ++ conversionTasks queue format template) := by
  constructor
  · have h := List.Perm.filterMap (fun e =>
        match e with
        | Effect.download filename => some filename
        | Effect.alert _ => none)
      (runConversions_perm (conversionTasks queue format template) outcome horder)
    have e := downloads_in_queue_order queue format template outcome
    unfold downloadsOf at e ⊢
    rw [e] at h
    simpa [nameBaseOf, orElse] using h
  · intro s hq hf hn
    simp [convertAllImages, hq, hf, hn]

/-- The scenario of the specification: queue `[a.png, b.jpg, c.webp]`, format
`jpeg`, template `Photo`, pipelines completing in the order 3, 1, 2. -/
theorem convertAllImages_download_names_witness :
    (downloadsOf (runConversions
        (conversionTasks
          [{ name := js "a.png", type := js "image/png", blob := 1 },
           { name := js "b.jpg", type := js "image/jpeg", blob := 2 },
           { name := js "c.webp", type := js "image/webp", blob := 3 }]
          (js "jpeg") (js "Photo"))
        (fun _ => Outcome.decoded (some 0)) [2, 0, 1])).Perm
      [js "Photo_1.jpeg", js "Photo_2.jpeg", js "Photo_3.jpeg"] := by
  have h := (convertAllImages_download_names
    [{ name := js "a.png", type := js "image/png", blob := 1 },
     { name := js "b.jpg", type := js "image/jpeg", blob := 2 },
     { name := js "c.webp", type := js "image/webp", blob := 3 }]
    (js "jpeg") (js "Photo") (fun _ => Outcome.decoded (some 0)) [2, 0, 1] (by decide)).1
  exact h

/-- Claim C3 as stated fails: with the template ` Photo` (a leading space) the
download of the first item is `Photo_1.jpeg`, not ` Photo_1.jpeg`; and with the
non-empty template of one space the base is `ConvertedImage`. -/
theorem convertAllImages_base_is_trimmed :
    downloadsOf (runConversions
        (conversionTasks [{ name := js "a.png", type := js "image/png", blob := 1 }]
          (js "jpeg") (js " Photo"))
        (fun _ => Outcome.decoded (some 0)) [0]) = [js "Photo_1.jpeg"] ∧
    js "Photo_1.jpeg" ≠ js " Photo" ++ js "_" ++ numToString 1 ++ js "." ++ js "jpeg" ∧
    downloadsOf (runConversions
        (conversionTasks [{ name := js "a.png", type := js "image/png", blob := 1 }]
          (js "jpeg") (js " "))
        (fun _ => Outcome.decoded (some 0)) [0]) = [js "ConvertedImage_1.jpeg"] := by
  decide

/-- The alerts and the downloads of a whole conversion, whatever the order in
which the pipelines end: one alert for each position whose decode fails, one
download for each position whose decode and encode succeed. -/
theorem effects_by_position (queue : List File) (format template : JSString)
    (outcome : Nat → Outcome) (order : List Nat)
    (horder : order.Perm (List.range queue.length)) :
    (alertsOf (runConversions (conversionTasks queue format template) outcome order)).Perm
      (((List.range queue.length).filter (fun i => (outcome i).decodeFailed)).map (fun i =>
        js "Error: The image with ID " ++ numToString (i + 1) ++ js " is invalid.")) ∧
    (downloadsOf (runConversions (conversionTasks queue format template) outcome order)).Perm
      (((List.range queue.length).filter (fun i => (outcome i).succeeded)).map (fun i =>
        nameBaseOf template ++ js "_" ++ numToString (i + 1) ++ js "." ++ format)) := by
  have hp := runConversions_perm (conversionTasks queue format template) outcome horder
  constructor
  · have h := List.Perm.filterMap (fun e =>
        match e with
        | Effect.alert message => some message
        | Effect.download _ => none) hp
    have e := alerts_in_queue_order queue format template outcome
    unfold alertsOf at e ⊢
    rw [e] at h
    exact h
  · have h := List.Perm.filterMap (fun e =>
        match e with
        | Effect.download filename => some filename
        | Effect.alert _ => none) hp
    have e := downloads_in_queue_order queue format template outcome
    unfold downloadsOf at e ⊢
    rw [e] at h
    exact h

/-! ## Timers -/

theorem truthy_eq_true (o : Option Nat) :
    truthy o = true ↔ ∃ h, o = some h ∧ h ≠ 0 := by
  cases o <;> simp [truthy]

theorem TimersTracked.of_sublist {ts ts1 : List Timer} {n : Nat} {a r a1 r1 : Option Nat}
    (h : TimersTracked ts n a r) (hsub : ts1.Sublist ts)
    (ha : a1 = a ∨ ∀ t ∈ ts1, t.kind ≠ TimerKind.advance)
    (hr : r1 = r ∨ ∀ t ∈ ts1, t.kind ≠ TimerKind.resume) :
    TimersTracked ts1 n a1 r1 where
  pos t ht := h.pos t (hsub.subset ht)
  le t ht := h.le t (hsub.subset ht)
  nodup := List.Nodup.sublist (hsub.map _) h.nodup
  advance t ht hk := by
    rcases ha with ha | ha
    · rw [ha]; exact h.advance t (hsub.subset ht) hk
    · exact absurd hk (ha t ht)
  resume t ht hk := by
    rcases hr with hr | hr
    · rw [hr]; exact h.resume t (hsub.subset ht) hk
    · exact absurd hk (hr t ht)

theorem TimersTracked.add {ts : List Timer} {n : Nat} {a r a1 r1 : Option Nat}
    (h : TimersTracked ts n a r) (kind : TimerKind) (delay : Nat)
    (ha : (kind ≠ TimerKind.advance ∧ a1 = a) ∨
      (a1 = some (n + 1) ∧ ∀ t ∈ ts, t.kind ≠ TimerKind.advance))
    (hr : (kind ≠ TimerKind.resume ∧ r1 = r) ∨
      (r1 = some (n + 1) ∧ ∀ t ∈ ts, t.kind ≠ TimerKind.resume)) :
    TimersTracked (ts ++ [{ handle := n + 1, kind := kind, delay := delay }]) (n + 1) a1 r1 where
  pos t ht := by
    rcases List.mem_append.mp ht with ht | ht
    · exact h.pos t ht
    · simp at ht; subst ht; simp
  le t ht := by
    rcases List.mem_append.mp ht with ht | ht
    · exact Nat.le_succ_of_le (h.le t ht)
    · simp at ht; subst ht; simp
  nodup := by
    rw [List.map_append, List.nodup_append]
    refine ⟨h.nodup, by simp, ?_⟩
    intro x hx hx1
    simp at hx1
    obtain ⟨t, ht, rfl⟩ := List.mem_map.mp hx
    have := h.le t ht
    omega
  advance t ht hk := by
    rcases List.mem_append.mp ht with ht | ht
    · rcases ha with ⟨_, ha⟩ | ⟨_, ha⟩
      · rw [ha]; exact h.advance t ht hk
      · exact absurd hk (ha t ht)
    · simp at ht; subst ht
      rcases ha with ⟨ha, _⟩ | ⟨ha, _⟩
      · exact absurd hk ha
      · exact ha
  resume t ht hk := by
    rcases List.mem_append.mp ht with ht | ht
    · rcases hr with ⟨_, hr⟩ | ⟨_, hr⟩
      · rw [hr]; exact h.resume t ht hk
      · exact absurd hk (hr t ht)
    · simp at ht; subst ht
      rcases hr with ⟨hr, _⟩ | ⟨hr, _⟩
      · exact absurd hk hr
      · exact hr

theorem TimersTracked.no_advance_of_falsy {ts : List Timer} {n : Nat} {a r : Option Nat}
    (h : TimersTracked ts n a r) (hf : truthy a = false) :
    ∀ t ∈ ts, t.kind ≠ TimerKind.advance := by
  intro t ht hk
  have e := h.advance t ht hk
  have hp := h.pos t ht
  have : truthy a = true := (truthy_eq_true a).mpr ⟨t.handle, e, by omega⟩
  simp [hf] at this

theorem TimersTracked.no_advance_of_clear {ts : List Timer} {n x : Nat} {r : Option Nat}
    (h : TimersTracked ts n (some x) r) :
    ∀ t ∈ ts.filter (fun t => t.handle != x), t.kind ≠ TimerKind.advance := by
  intro t ht hk
  have hm := List.mem_filter.mp ht
  have e := h.advance t hm.1 hk
  simp at e
  simp [e] at hm

theorem TimersTracked.no_resume_of_falsy {ts : List Timer} {n : Nat} {a r : Option Nat}
    (h : TimersTracked ts n a r) (hf : truthy r = false) :
    ∀ t ∈ ts, t.kind ≠ TimerKind.resume := by
  intro t ht hk
  have e := h.resume t ht hk
  have hp := h.pos t ht
  have : truthy r = true := (truthy_eq_true r).mpr ⟨t.handle, e, by omega⟩
  simp [hf] at this

theorem TimersTracked.no_resume_of_clear {ts : List Timer} {n x : Nat} {a : Option Nat}
    (h : TimersTracked ts n a (some x)) :
    ∀ t ∈ ts.filter (fun t => t.handle != x), t.kind ≠ TimerKind.resume := by
  intro t ht hk
  have hm := List.mem_filter.mp ht
  have e := h.resume t hm.1 hk
  simp at e
  simp [e] at hm

theorem filter_isAdvance_eq_nil {ts : List Timer}
    (h : ∀ t ∈ ts, t.kind ≠ TimerKind.advance) : ts.filter Timer.isAdvance = [] := by
  rw [List.filter_eq_nil_iff]
  intro t ht
  simpa [Timer.isAdvance] using h t ht

theorem filter_isResume_eq_nil {ts : List Timer}
    (h : ∀ t ∈ ts, t.kind ≠ TimerKind.resume) : ts.filter Timer.isResume = [] := by
  rw [List.filter_eq_nil_iff]
  intro t ht
  simpa [Timer.isResume] using h t ht

/-! ## `startSlideshow` -/

theorem cancelAdvance_cases (s : State) :
    (truthy s.slideshowInterval = false ∧ cancelAdvance s = s) ∨
    (∃ x, x ≠ 0 ∧ s.slideshowInterval = some x ∧
      cancelAdvance s =
        { s with timers := s.timers.filter (fun t => t.handle != x), slideshowInterval := none }) := by
  by_cases ht : truthy s.slideshowInterval = true
  · right
    obtain ⟨x, hx, hx0⟩ := (truthy_eq_true _).mp ht
    refine ⟨x, hx0, hx, ?_⟩
    rw [cancelAdvance, if_pos ht, hx]
    rfl
  · left
    simp only [Bool.not_eq_true] at ht
    exact ⟨ht, by simp [cancelAdvance, ht]⟩

theorem cancelResume_cases (s : State) :
    (truthy s.slideshowResumeTimeout = false ∧ cancelResume s = s) ∨
    (∃ x, x ≠ 0 ∧ s.slideshowResumeTimeout = some x ∧
      cancelResume s =
        { s with
          timers := s.timers.filter (fun t => t.handle != x), slideshowResumeTimeout := none }) := by
  by_cases ht : truthy s.slideshowResumeTimeout = true
  · right
    obtain ⟨x, hx, hx0⟩ := (truthy_eq_true _).mp ht
    refine ⟨x, hx0, hx, ?_⟩
    rw [cancelResume, if_pos ht, hx]
    rfl
  · left
    simp only [Bool.not_eq_true] at ht
    exact ⟨ht, by simp [cancelResume, ht]⟩

/-- The function `startSlideshow` is its leading block followed by `startFrom`. -/
theorem startSlideshow_eq (s : State) : startSlideshow s = startFrom (cancelAdvance s) := by
  have h : ∀ c : State,
      (if c.imageQueue.length = 0 then
        some { c with
          dom := { c.dom with imgPreviewSrc := Src.empty, imgPreviewDisplay := js "none" } }
      else if c.imageQueue.length = 1 then showPreview c 0 false
      else
        match showPreview { c with slideshowIndex := 0 } 0 true with
        | none => none
        | some s3 =>
          some { (setTimer s3 TimerKind.advance 2000).2 with
            slideshowInterval := some (setTimer s3 TimerKind.advance 2000).1 }) = startFrom c := by
    intro c
    unfold startFrom
    rcases hq : c.imageQueue with _ | ⟨f, _ | ⟨g, r⟩⟩ <;> simp [hq, showPreview, setTimer]
  exact h (cancelAdvance s)

/-- The live advance timers are gone after the leading block, and the timers stay tracked. -/
theorem cancelAdvance_spec (s : State) :
    ∃ ts a, cancelAdvance s = { s with timers := ts, slideshowInterval := a } ∧
      ts.Sublist s.timers ∧
      (s.Tracked → TimersTracked ts s.lastHandle a s.slideshowResumeTimeout ∧
        ∀ t ∈ ts, t.kind ≠ TimerKind.advance) := by
  rcases cancelAdvance_cases s with ⟨hf, e⟩ | ⟨x, _, hx, e⟩
  · refine ⟨s.timers, s.slideshowInterval, e, List.Sublist.refl _, fun ht => ⟨ht, ?_⟩⟩
    exact TimersTracked.no_advance_of_falsy ht hf
  · refine ⟨_, _, e, List.filter_sublist _, fun ht => ?_⟩
    have ht1 : TimersTracked s.timers s.lastHandle (some x) s.slideshowResumeTimeout := by
      rw [← hx]; exact ht
    have hno := TimersTracked.no_advance_of_clear ht1
    exact ⟨ht.of_sublist (List.filter_sublist _) (Or.inr hno) (Or.inl rfl), hno⟩

theorem startSlideshow_spec (s : State) :
    ∃ ts a n idx reads dom,
      startSlideshow s = some { s with
        timers := ts, slideshowInterval := a, lastHandle := n, slideshowIndex := idx,
        pendingReads := reads, dom := dom } ∧
      (s.Tracked → TimersTracked ts n a s.slideshowResumeTimeout ∧
        (s.imageQueue.length ≤ 1 → ts.filter Timer.isAdvance = []) ∧
        (2 ≤ s.imageQueue.length → ∃ h, a = some h ∧
          ts.filter Timer.isAdvance = [{ handle := h, kind := TimerKind.advance, delay := 2000 }])) ∧
      (2 ≤ s.imageQueue.length → idx = 0) ∧
      (s.imageQueue.length ≤ 1 → idx = s.slideshowIndex) ∧
      (s.imageQueue = [] →
        dom.imgPreviewSrc = Src.empty ∧ dom.imgPreviewDisplay = js "none") ∧
      (∀ file, s.imageQueue = [file] → reads = s.pendingReads ++ [Read.preview file false]) := by
  obtain ⟨ts, a, e, hsub, htr⟩ := cancelAdvance_spec s
  rw [startSlideshow_eq, e]
  rcases hq : s.imageQueue with _ | ⟨f, _ | ⟨g, rest⟩⟩
  · refine ⟨ts, a, s.lastHandle, s.slideshowIndex, s.pendingReads,
      { s.dom with imgPreviewSrc := Src.empty, imgPreviewDisplay := js "none" }, ?_, ?_⟩
    · simp only [startFrom, hq]
    · simp
      intro ht
      exact ⟨(htr ht).1, fun t h => by simpa [Timer.isAdvance] using (htr ht).2 t h⟩
  · refine ⟨ts, a, s.lastHandle, s.slideshowIndex,
      s.pendingReads ++ [Read.preview f false], s.dom, ?_, ?_⟩
    · simp only [startFrom, hq]
    · simp
      intro ht
      exact ⟨(htr ht).1, fun t h => by simpa [Timer.isAdvance] using (htr ht).2 t h⟩
  · refine ⟨ts ++ [{ handle := s.lastHandle + 1, kind := TimerKind.advance, delay := 2000 }],
      some (s.lastHandle + 1), s.lastHandle + 1, 0,
      s.pendingReads ++ [Read.preview f true], s.dom, ?_, ?_⟩
    · simp only [startFrom, hq]
    · simp
      intro ht
      obtain ⟨h1, h2⟩ := htr ht
      refine ⟨h1.add TimerKind.advance 2000 (Or.inr ⟨rfl, h2⟩) (Or.inl ⟨by simp, rfl⟩), ?_⟩
      rw [filter_isAdvance_eq_nil h2]
      simp [Timer.isAdvance]


/-! ## What each handler writes -/

theorem enqueue_spec (s : State) (files : List File) (h : 0 < files.length) :
    ∃ ts a n idx reads dom,
      enqueue s files h = some { s with
        imageQueue := s.imageQueue ++ files, timers := ts, slideshowInterval := a,
        lastHandle := n, slideshowIndex := idx, pendingReads := reads, dom := dom } ∧
      (s.Tracked → TimersTracked ts n a s.slideshowResumeTimeout) ∧
      (2 ≤ (s.imageQueue ++ files).length → idx = 0) := by
  obtain ⟨ts, a, n, idx, reads, dom, e, htr, hidx, -⟩ := startSlideshow_spec
    (updateQueue { s with
      dom := { s.dom with imageInputButtonText := js "Upload more image(s)" }
      imageQueue := s.imageQueue ++ files })
  refine ⟨ts, a, n, idx, reads ++ [Read.firstOfBatch files[0]], dom, ?_, fun ht => (htr ht).1, hidx⟩
  unfold enqueue
  simp only [e]
  rfl

theorem removeClick_spec (s : State) (i : Nat) :
    ∃ ts a n idx reads dom,
      removeClick s i = some { s with
        imageQueue := splice s.imageQueue i 1, timers := ts, slideshowInterval := a,
        lastHandle := n, slideshowIndex := idx, pendingReads := reads, dom := dom } ∧
      (s.Tracked → TimersTracked ts n a s.slideshowResumeTimeout) ∧
      (2 ≤ (splice s.imageQueue i 1).length → idx = 0) := by
  obtain ⟨ts, a, n, idx, reads, dom, e, htr, hidx, -⟩ := startSlideshow_spec
    (updateQueue { s with imageQueue := splice s.imageQueue i 1 })
  unfold removeClick
  simp only [e]
  rcases hq : splice s.imageQueue i 1 with _ | ⟨f, rest⟩
  · refine ⟨ts, a, n, idx, reads,
      { dom with
        imgPreviewSrc := Src.empty
        imgPreviewDisplay := js "none"
        imageInputButtonText := js "Upload image(s)" }, ?_, fun ht => (htr ht).1, ?_⟩
    · simp [updateQueue, hq]
    · simp
  · refine ⟨ts, a, n, idx, reads ++ [Read.preview f false], dom, ?_, fun ht => (htr ht).1, ?_⟩
    · simp [updateQueue, hq, showPreview]
    · intro h2
      exact hidx (by simpa [updateQueue, hq] using h2)


/-! ## Intake, removal and the convert button -/

theorem isValidImageType_iff (t : JSString) :
    isValidImageType t = true ↔
      (t = js "image/png" ∨ t = js "image/jpeg" ∨ t = js "image/jpg" ∨ t = js "image/webp") := by
  simp [isValidImageType]

theorem inputChange_queue (s : State) (batch : List File) :
    ∃ s1, inputChange s batch = some s1 ∧
      s1.imageQueue = s.imageQueue ++ validFiles batch := by
  unfold inputChange
  by_cases h : 0 < (validFiles batch).length
  · obtain ⟨ts, a, n, idx, reads, dom, e, -⟩ := enqueue_spec s (validFiles batch) h
    simp only [h, dite_true]
    exact ⟨_, e, rfl⟩
  · have hnil : validFiles batch = [] := List.length_eq_zero.mp (by omega)
    simp [hnil]

theorem drop_queue (s : State) (batch : List File) :
    ∃ s1, drop s batch = some s1 ∧
      s1.imageQueue = s.imageQueue ++ validFiles batch := by
  unfold drop
  by_cases hb : 0 < batch.length
  · by_cases h : 0 < (validFiles batch).length
    · obtain ⟨ts, a, n, idx, reads, dom, e, -⟩ := enqueue_spec
        { s with dom := { s.dom with dragOverlayDisplay := js "none" } } (validFiles batch) h
      simp only [hb, h, if_true, dite_true]
      exact ⟨_, e, rfl⟩
    · have hnil : validFiles batch = [] := List.length_eq_zero.mp (by omega)
      simp [hb, hnil, alert]
  · have hnil : batch = [] := List.length_eq_zero.mp (by omega)
    simp [hnil, validFiles]

/-- Claim C1. For every queue and every batch delivered by the file picker
(`change`) or by drag-and-drop (`drop`), the queue after intake is the previous
queue followed by exactly the files of the batch whose type is `image/png`,
`image/jpeg`, `image/jpg` or `image/webp`, in the order received, and its length
grows by the number of those files. -/
theorem intake_appends_valid_files (s : State) (batch : List File) :
    (∀ t, isValidImageType t = true ↔
      (t = js "image/png" ∨ t = js "image/jpeg" ∨ t = js "image/jpg" ∨ t = js "image/webp")) ∧
    (∃ s1, inputChange s batch = some s1 ∧
      s1.imageQueue = s.imageQueue ++ batch.filter (fun f => isValidImageType f.type) ∧
      s1.imageQueue.length =
        s.imageQueue.length + batch.countP (fun f => isValidImageType f.type)) ∧
    (∃ s1, drop s batch = some s1 ∧
      s1.imageQueue = s.imageQueue ++ batch.filter (fun f => isValidImageType f.type) ∧
      s1.imageQueue.length =
        s.imageQueue.length + batch.countP (fun f => isValidImageType f.type)) := by
  refine ⟨isValidImageType_iff, ?_, ?_⟩
  · obtain ⟨s1, e, hq⟩ := inputChange_queue s batch
    refine ⟨s1, e, hq, ?_⟩
    rw [hq, List.length_append, validFiles, List.countP_eq_length_filter]
  · obtain ⟨s1, e, hq⟩ := drop_queue s batch
    refine ⟨s1, e, hq, ?_⟩
    rw [hq, List.length_append, validFiles, List.countP_eq_length_filter]

/-- Claim C2. For every queue of length `n` and every position `i < n`, the
remove control of entry `i` (one control per position is rendered by
`updateQueue`) leaves a queue of length `n - 1`: the original with position `i`
deleted, earlier entries in place and later entries shifted down by one. -/
theorem removeClick_deletes_position (s : State) (i : Nat) (h : i < s.imageQueue.length) :
    (updateQueue s).dom.queueEntries.length = s.imageQueue.length ∧
    ∃ s1, step s (Event.removeClick i) = some s1 ∧
      s1.imageQueue = s.imageQueue.eraseIdx i ∧
      s1.imageQueue.length = s.imageQueue.length - 1 ∧
      (∀ j, j < i → s1.imageQueue[j]? = s.imageQueue[j]?) ∧
      (∀ j, i ≤ j → s1.imageQueue[j]? = s.imageQueue[j + 1]?) := by
  constructor
  · simp [updateQueue]
  · obtain ⟨ts, a, n, idx, reads, dom, e, -⟩ := removeClick_spec s i
    refine ⟨_, by simp only [step, h, if_true]; exact e, ?_, ?_, ?_, ?_⟩
    · exact splice_one _ _ h
    · show (splice s.imageQueue i 1).length = _
      rw [splice_one _ _ h, List.length_eraseIdx, if_pos h]
    · intro j hj
      show (splice s.imageQueue i 1)[j]? = _
      rw [splice_one _ _ h, List.getElem?_eraseIdx, if_pos hj]
    · intro j hj
      show (splice s.imageQueue i 1)[j]? = _
      rw [splice_one _ _ h, List.getElem?_eraseIdx, if_neg (by omega)]

/-- Removing the middle entry of a three-entry queue. -/
theorem removeClick_deletes_position_witness :
    ∃ s1, step { initial examplePage with imageQueue := [fileA, fileB, fileC] }
        (Event.removeClick 1) = some s1 ∧
      s1.imageQueue = [fileA, fileC] := by
  obtain ⟨-, s1, e, hq, -⟩ := removeClick_deletes_position
    { initial examplePage with imageQueue := [fileA, fileB, fileC] } 1 (by decide)
  exact ⟨s1, e, hq⟩

/-- Claim C4 (amended). For every non-empty queue and every filename template
that is longer than 250 code units after its leading and trailing whitespace is
trimmed, the convert button only shows the warning: `convertAllImages` is not
run, nothing is downloaded and nothing else changes. -/
theorem convertClick_rejects_long_name (s : State) (hq : s.imageQueue ≠ [])
    (hlen : 250 < (trim s.dom.nameInputValue).length) :
    convertClick s =
      { s with
        alerts := s.alerts ++
          [js "There is a 250-character limit on filenames. Please shorten the name."] } ∧
    (convertClick s).conversions = s.conversions ∧
    (convertClick s).downloads = s.downloads := by
  have h0 : s.imageQueue.length ≠ 0 := fun h => hq (List.length_eq_zero.mp h)
  have e : convertClick s =
      { s with
        alerts := s.alerts ++
          [js "There is a 250-character limit on filenames. Please shorten the name."] } := by
    simp [convertClick, h0, hlen, alert]
  rw [e]
  exact ⟨rfl, rfl, rfl⟩

set_option maxRecDepth 100000 in
/-- A template of 251 letters `a` on a one-file queue. -/
theorem convertClick_rejects_long_name_witness :
    (convertClick
      { initial { examplePage with nameInputValue := List.replicate 251 97 } with
        imageQueue := [fileA] }).alerts =
      [js "There is a 250-character limit on filenames. Please shorten the name."] ∧
    (convertClick
      { initial { examplePage with nameInputValue := List.replicate 251 97 } with
        imageQueue := [fileA] }).conversions = [] := by
  have h := convertClick_rejects_long_name
    { initial { examplePage with nameInputValue := List.replicate 251 97 } with
      imageQueue := [fileA] } (by decide) (by decide)
  rw [h.1]
  exact ⟨rfl, rfl⟩

set_option maxRecDepth 100000 in
/-- Claim C4 as stated fails: a template of 250 letters `a` followed by one space
has length 251, yet the convert button shows no warning and starts the
conversion, whose download will be named with the 250 letters. -/
theorem convertClick_accepts_251_with_space :
    (List.replicate 250 97 ++ [32] : JSString).length = 251 ∧
    (convertClick
      { initial { examplePage with nameInputValue := List.replicate 250 97 ++ [32] } with
        imageQueue := [fileA] }).alerts = [] ∧
    (convertClick
      { initial { examplePage with nameInputValue := List.replicate 250 97 ++ [32] } with
        imageQueue := [fileA] }).conversions =
      [{ file := fileA, idx := 0, format := js "png", nameBase := List.replicate 250 97 }] := by
  decide

/-- The `change` handler never alerts, whatever the batch. -/
theorem inputChange_never_alerts (s : State) (batch : List File) :
    ∃ s1, inputChange s batch = some s1 ∧ s1.alerts = s.alerts := by
  unfold inputChange
  by_cases h : 0 < (validFiles batch).length
  · obtain ⟨ts, a, n, idx, reads, dom, e, -⟩ := enqueue_spec s (validFiles batch) h
    simp only [h, dite_true]
    exact ⟨_, e, rfl⟩
  · simp [h]

/-- The `drop` handler alerts on a non-empty batch exactly when no file of the
batch is accepted. -/
theorem drop_alerts_iff (s : State) (batch : List File) (hb : batch ≠ []) :
    ∃ s1, drop s batch = some s1 ∧
      ((validFiles batch = [] ∧
          s1.alerts =
            s.alerts ++ [js "Please drop valid PNG, JPG/JPEG or WEBP image files only."]) ∨
        (validFiles batch ≠ [] ∧ s1.alerts = s.alerts)) := by
  have hlen : 0 < batch.length := List.length_pos.mpr hb
  unfold drop
  by_cases h : 0 < (validFiles batch).length
  · obtain ⟨ts, a, n, idx, reads, dom, e, -⟩ := enqueue_spec
      { s with dom := { s.dom with dragOverlayDisplay := js "none" } } (validFiles batch) h
    simp only [hlen, h, if_true, dite_true]
    exact ⟨_, e, Or.inr ⟨List.length_pos.mp h, rfl⟩⟩
  · have hnil : validFiles batch = [] := List.length_eq_zero.mp (by omega)
    simp [hlen, hnil, alert]

/-- Claim C6 fails on the `change` path: when the file picker delivers a batch
whose only file is `notes.txt` of type `text/plain`, nothing at all happens, no
alert included, whereas the `drop` handler alerts on the same batch. -/
theorem inputChange_all_invalid_is_silent :
    inputChange (initial examplePage) [fileTxt] = some (initial examplePage) ∧
    (initial examplePage).alerts = [] ∧
    drop (initial examplePage) [fileTxt] =
      some { initial examplePage with
        alerts := [js "Please drop valid PNG, JPG/JPEG or WEBP image files only."] } := by
  decide


/-! ## Hover and timer callbacks -/

theorem cancelResume_spec (s : State) :
    ∃ ts r, cancelResume s = { s with timers := ts, slideshowResumeTimeout := r } ∧
      ts.Sublist s.timers ∧
      (s.Tracked → TimersTracked ts s.lastHandle s.slideshowInterval r ∧
        ∀ t ∈ ts, t.kind ≠ TimerKind.resume) := by
  rcases cancelResume_cases s with ⟨hf, e⟩ | ⟨x, _, hx, e⟩
  · refine ⟨s.timers, s.slideshowResumeTimeout, e, List.Sublist.refl _, fun ht => ⟨ht, ?_⟩⟩
    exact TimersTracked.no_resume_of_falsy ht hf
  · refine ⟨_, _, e, List.filter_sublist _, fun ht => ?_⟩
    have ht1 : TimersTracked s.timers s.lastHandle s.slideshowInterval (some x) := by
      rw [← hx]; exact ht
    have hno := TimersTracked.no_resume_of_clear ht1
    exact ⟨ht.of_sublist (List.filter_sublist _) (Or.inl rfl) (Or.inr hno), hno⟩

theorem mouseenter_eq (s : State) (i : Nat) :
    mouseenter s i =
      (showPreview { s with isMouseOverQueueItem := true } i false).map
        (fun s2 => cancelResume (cancelAdvance s2)) := by
  have key : ∀ o : Option State,
      (match o with
        | none => none
        | some s2 => some (cancelResume (cancelAdvance s2))) =
      o.map (fun s2 => cancelResume (cancelAdvance s2)) := by
    intro o
    cases o <;> rfl
  exact key _

theorem mouseenter_total (s : State) (i : Nat) (h : i < s.imageQueue.length) :
    ∃ s1, mouseenter s i = some s1 := by
  rw [mouseenter_eq]
  simp [showPreview, List.getElem?_eq_getElem h]

theorem mouseenter_spec (s s1 : State) (i : Nat) (h : mouseenter s i = some s1) :
    ∃ ts a r reads,
      s1 = { s with
        isMouseOverQueueItem := true, pendingReads := reads, timers := ts,
        slideshowInterval := a, slideshowResumeTimeout := r } ∧
      (s.Tracked → TimersTracked ts s.lastHandle a r ∧
        (∀ t ∈ ts, t.kind ≠ TimerKind.advance) ∧ (∀ t ∈ ts, t.kind ≠ TimerKind.resume)) := by
  rw [mouseenter_eq] at h
  rcases hq : s.imageQueue[i]? with _ | file
  · simp [showPreview, hq] at h
  · simp only [showPreview, hq, Option.map_some', Option.some.injEq] at h
    obtain ⟨ts, a, e, hsub, htr⟩ := cancelAdvance_spec
      { s with
        isMouseOverQueueItem := true
        pendingReads := s.pendingReads ++ [Read.preview file false] }
    rw [e] at h
    obtain ⟨ts1, r, e1, hsub1, htr1⟩ := cancelResume_spec
      { s with
        isMouseOverQueueItem := true
        pendingReads := s.pendingReads ++ [Read.preview file false]
        timers := ts
        slideshowInterval := a }
    rw [e1] at h
    refine ⟨ts1, a, r, _, h.symm, fun ht => ?_⟩
    obtain ⟨h1, h2⟩ := htr ht
    obtain ⟨h3, h4⟩ := htr1 h1
    exact ⟨h3, fun t ht1 => h2 t (hsub1.subset ht1), h4⟩

theorem mouseleave_spec (s : State) :
    ∃ ts,
      mouseleave s = { s with
        isMouseOverQueueItem := false
        timers := ts ++ [{ handle := s.lastHandle + 1, kind := TimerKind.resume, delay := 2000 }]
        lastHandle := s.lastHandle + 1
        slideshowResumeTimeout := some (s.lastHandle + 1) } ∧
      ts.Sublist s.timers ∧
      (s.Tracked →
        TimersTracked
          (ts ++ [{ handle := s.lastHandle + 1, kind := TimerKind.resume, delay := 2000 }])
          (s.lastHandle + 1) s.slideshowInterval (some (s.lastHandle + 1)) ∧
        ∀ t ∈ ts, t.kind ≠ TimerKind.resume) := by
  by_cases htr : truthy s.slideshowResumeTimeout = true
  · obtain ⟨x, hx, hx0⟩ := (truthy_eq_true _).mp htr
    refine ⟨s.timers.filter (fun t => t.handle != x), ?_, List.filter_sublist _, fun ht => ?_⟩
    · have htx : truthy (some x) = true := by rw [← hx]; exact htr
      simp [mouseleave, clearTimer, hx, htx, setTimer]
    · have ht1 : TimersTracked s.timers s.lastHandle s.slideshowInterval (some x) := by
        rw [← hx]; exact ht
      have hno := TimersTracked.no_resume_of_clear ht1
      have h2 : TimersTracked (s.timers.filter (fun t => t.handle != x)) s.lastHandle
          s.slideshowInterval s.slideshowResumeTimeout :=
        ht.of_sublist (List.filter_sublist _) (Or.inl rfl) (Or.inl rfl)
      exact ⟨h2.add TimerKind.resume 2000 (Or.inl ⟨by simp, rfl⟩) (Or.inr ⟨rfl, hno⟩), hno⟩
  · simp only [Bool.not_eq_true] at htr
    refine ⟨s.timers, ?_, List.Sublist.refl _, fun ht => ?_⟩
    · simp [mouseleave, htr, setTimer]
    · have hno := TimersTracked.no_resume_of_falsy ht htr
      exact ⟨TimersTracked.add ht TimerKind.resume 2000 (Or.inl ⟨by simp, rfl⟩)
        (Or.inr ⟨rfl, hno⟩), hno⟩

theorem slideshowTick_spec (s : State) :
    ∃ ts a idx reads,
      slideshowTick s = some { s with
        timers := ts, slideshowInterval := a, slideshowIndex := idx, pendingReads := reads } ∧
      (s.Tracked → TimersTracked ts s.lastHandle a s.slideshowResumeTimeout) ∧
      (2 ≤ s.imageQueue.length → idx = (s.slideshowIndex + 1) % s.imageQueue.length) ∧
      (s.imageQueue.length ≤ 1 → idx = s.slideshowIndex) := by
  unfold slideshowTick
  by_cases hle : s.imageQueue.length ≤ 1
  · simp only [hle, if_true]
    rcases ha : s.slideshowInterval with _ | x
    · refine ⟨s.timers, none, s.slideshowIndex, s.pendingReads, ?_, fun ht => ?_, ?_, ?_⟩
      · simp [clearTimer]
      · have ht1 : TimersTracked s.timers s.lastHandle none s.slideshowResumeTimeout := by
          rw [← ha]; exact ht
        exact ht1
      · intro h2; omega
      · intro _; rfl
    · refine ⟨s.timers.filter (fun t => t.handle != x), none, s.slideshowIndex, s.pendingReads,
        ?_, fun ht => ?_, ?_, ?_⟩
      · simp [clearTimer]
      · have ht1 : TimersTracked s.timers s.lastHandle (some x) s.slideshowResumeTimeout := by
          rw [← ha]; exact ht
        exact ht1.of_sublist (List.filter_sublist _)
          (Or.inr (TimersTracked.no_advance_of_clear ht1)) (Or.inl rfl)
      · intro h2; omega
      · intro _; rfl
  · have hlt : (s.slideshowIndex + 1) % s.imageQueue.length < s.imageQueue.length :=
      Nat.mod_lt _ (by omega)
    refine ⟨s.timers, s.slideshowInterval, (s.slideshowIndex + 1) % s.imageQueue.length,
      s.pendingReads ++
        [Read.preview (s.imageQueue[(s.slideshowIndex + 1) % s.imageQueue.length]) true],
      ?_, fun ht => ht, fun _ => rfl, fun h1 => absurd h1 hle⟩
    simp [hle, showPreview, List.getElem?_eq_getElem hlt]


/-! ## Invariants of the reachable states -/

theorem SameCore.tracked {s s1 : State} (h : SameCore s s1) (ht : s.Tracked) : s1.Tracked := by
  unfold State.Tracked at ht ⊢
  rw [h.timers, h.lastHandle, h.slideshowInterval, h.slideshowResumeTimeout]
  exact ht

theorem SameCore.indexOK {s s1 : State} (h : SameCore s s1) (hi : s.IndexOK) : s1.IndexOK := by
  unfold State.IndexOK at hi ⊢
  rw [h.imageQueue, h.slideshowIndex]
  exact hi

theorem convertClick_sameCore (s : State) : SameCore s (convertClick s) := by
  unfold convertClick alert convertAllImages
  split_ifs <;> exact ⟨rfl, rfl, rfl, rfl, rfl, rfl, rfl⟩

theorem dragenter_sameCore (s : State) (items : Option (List DragItem)) :
    SameCore s (dragenter s items) := by
  unfold dragenter
  rcases items with _ | _ | ⟨item, rest⟩
  · exact ⟨rfl, rfl, rfl, rfl, rfl, rfl, rfl⟩
  · exact ⟨rfl, rfl, rfl, rfl, rfl, rfl, rfl⟩
  · simp only
    split_ifs <;> exact ⟨rfl, rfl, rfl, rfl, rfl, rfl, rfl⟩

theorem dragleave_sameCore (s : State) : SameCore s (dragleave s) := by
  unfold dragleave
  simp only
  split_ifs <;> exact ⟨rfl, rfl, rfl, rfl, rfl, rfl, rfl⟩

theorem keydown_sameCore (s : State) (key : JSString) : SameCore s (keydown s key) := by
  unfold keydown
  split_ifs <;> exact ⟨rfl, rfl, rfl, rfl, rfl, rfl, rfl⟩

theorem clearTimer_tracked (s : State) (h : Nat) (ht : s.Tracked) :
    (clearTimer s (some h)).Tracked :=
  TimersTracked.of_sublist ht (List.filter_sublist _) (Or.inl rfl) (Or.inl rfl)

theorem startSlideshow_inv (s s1 : State) (h : startSlideshow s = some s1) :
    (s.Tracked → s1.Tracked) ∧ s1.IndexOK ∧
    s1.isMouseOverQueueItem = s.isMouseOverQueueItem ∧ s1.imageQueue = s.imageQueue := by
  obtain ⟨ts, a, n, idx, reads, dom, e, htr, hidx, -⟩ := startSlideshow_spec s
  rw [e] at h
  cases h
  refine ⟨fun ht => (htr ht).1, ?_, rfl, rfl⟩
  intro h2
  have := hidx h2
  show idx < s.imageQueue.length
  have h3 : 2 ≤ s.imageQueue.length := h2
  omega

theorem enqueue_inv (s s1 : State) (files : List File) (hf : 0 < files.length)
    (h : enqueue s files hf = some s1) :
    (s.Tracked → s1.Tracked) ∧ s1.IndexOK ∧
    s1.isMouseOverQueueItem = s.isMouseOverQueueItem := by
  obtain ⟨ts, a, n, idx, reads, dom, e, htr, hidx⟩ := enqueue_spec s files hf
  rw [e] at h
  cases h
  refine ⟨htr, ?_, rfl⟩
  intro h2
  have := hidx h2
  show idx < (s.imageQueue ++ files).length
  have h3 : 2 ≤ (s.imageQueue ++ files).length := h2
  omega

theorem removeClick_inv (s s1 : State) (i : Nat) (h : removeClick s i = some s1) :
    (s.Tracked → s1.Tracked) ∧ s1.IndexOK ∧
    s1.isMouseOverQueueItem = s.isMouseOverQueueItem := by
  obtain ⟨ts, a, n, idx, reads, dom, e, htr, hidx⟩ := removeClick_spec s i
  rw [e] at h
  cases h
  refine ⟨htr, ?_, rfl⟩
  intro h2
  have := hidx h2
  show idx < (splice s.imageQueue i 1).length
  have h3 : 2 ≤ (splice s.imageQueue i 1).length := h2
  omega

theorem slideshowTick_inv (s s1 : State) (h : slideshowTick s = some s1) :
    (s.Tracked → s1.Tracked) ∧ s1.IndexOK ∧
    s1.isMouseOverQueueItem = s.isMouseOverQueueItem := by
  obtain ⟨ts, a, idx, reads, e, htr, hidx, -⟩ := slideshowTick_spec s
  rw [e] at h
  cases h
  refine ⟨htr, ?_, rfl⟩
  intro h2
  have h3 : 2 ≤ s.imageQueue.length := h2
  show idx < s.imageQueue.length
  rw [hidx h3]
  exact Nat.mod_lt _ (by omega)

theorem readerLoad_inv (s s1 : State) (k : Nat) (h : readerLoad s k = some s1) :
    (s.Tracked → s1.Tracked) ∧ (s.IndexOK → s1.IndexOK) ∧
    s1.isMouseOverQueueItem = s.isMouseOverQueueItem := by
  unfold readerLoad at h
  rcases hr : s.pendingReads[k]? with _ | r
  · simp [hr] at h
  · simp only [hr, Option.some.injEq] at h
    subst h
    rcases r with f | f | ⟨f, _ | _⟩
    · exact ⟨fun ht => ht, fun hi => hi, rfl⟩
    · exact ⟨fun ht => ht, fun hi => hi, rfl⟩
    · exact ⟨fun ht => ht, fun hi => hi, rfl⟩
    · refine ⟨fun ht => ?_, fun hi => hi, rfl⟩
      exact TimersTracked.add ht (TimerKind.fade f) 500 (Or.inl ⟨by simp, rfl⟩)
        (Or.inl ⟨by simp, rfl⟩)

theorem imageSettled_inv (s s1 : State) (k : Nat) (o : Outcome)
    (h : imageSettled s k o = some s1) :
    (s.Tracked → s1.Tracked) ∧ (s.IndexOK → s1.IndexOK) ∧
    s1.isMouseOverQueueItem = s.isMouseOverQueueItem := by
  unfold imageSettled at h
  rcases hr : s.conversions[k]? with _ | t
  · simp [hr] at h
  · simp only [hr] at h
    rcases o with _ | _ | b
    · simp only [Option.some.injEq] at h
      subst h
      exact ⟨fun ht => ht, fun hi => hi, rfl⟩
    · simp only [Option.some.injEq] at h
      subst h
      exact ⟨fun ht => ht, fun hi => hi, rfl⟩
    · simp only [Option.some.injEq] at h
      subst h
      refine ⟨fun ht => ?_, fun hi => hi, rfl⟩
      exact TimersTracked.add ht TimerKind.revoke 100 (Or.inl ⟨by simp, rfl⟩)
        (Or.inl ⟨by simp, rfl⟩)

theorem timerFire_inv (s s1 : State) (x : Nat) (h : timerFire s x = some s1) :
    (s.Tracked → s1.Tracked) ∧ (s.IndexOK → s1.IndexOK) ∧
    (s.isMouseOverQueueItem = false → s1.isMouseOverQueueItem = false) := by
  unfold timerFire at h
  rcases hf : s.timers.find? (fun t => t.handle == x) with _ | t
  · simp [hf] at h
  · simp only [hf] at h
    rcases hk : t.kind with _ | _ | f | _
    · simp only [hk] at h
      obtain ⟨h1, h2, h3⟩ := slideshowTick_inv s s1 h
      exact ⟨h1, fun _ => h2, fun hm => by rw [h3]; exact hm⟩
    · simp only [hk, resumeCallback] at h
      by_cases hm : (clearTimer s (some x)).isMouseOverQueueItem = true
      · simp only [hm, Bool.not_true, Bool.false_eq_true, if_false, Option.some.injEq] at h
        subst h
        exact ⟨fun ht => clearTimer_tracked s x ht, fun hi => hi, fun hm1 => hm1⟩
      · simp only [hm, Bool.not_false, if_true] at h
        simp only [Bool.not_eq_true] at hm
        obtain ⟨h1, h2, h3, -⟩ := startSlideshow_inv _ s1 h
        exact ⟨fun ht => h1 (clearTimer_tracked s x ht), fun _ => h2,
          fun hm1 => by rw [h3]; exact hm1⟩
    · simp only [hk, Option.some.injEq] at h
      subst h
      exact ⟨fun ht => clearTimer_tracked s x ht, fun hi => hi, fun hm1 => hm1⟩
    · simp only [hk, Option.some.injEq] at h
      subst h
      exact ⟨fun ht => clearTimer_tracked s x ht, fun hi => hi, fun hm1 => hm1⟩

theorem step_inv (s s1 : State) (e : Event) (h : step s e = some s1) :
    (s.Tracked → s1.Tracked) ∧ (s.IndexOK → s1.IndexOK) ∧
    (e.notMouseenter = true → s.isMouseOverQueueItem = false →
      s1.isMouseOverQueueItem = false) := by
  cases e with
  | inputChange picked =>
    simp only [step, inputChange] at h
    by_cases hv : 0 < (validFiles picked).length
    · simp only [hv, dite_true] at h
      obtain ⟨h1, h2, h3⟩ := enqueue_inv s s1 _ hv h
      exact ⟨h1, fun _ => h2, fun _ hm => by rw [h3]; exact hm⟩
    · simp only [hv, dite_false, Option.some.injEq] at h
      subst h
      exact ⟨id, id, fun _ hm => hm⟩
  | convertClick =>
    simp only [step, Option.some.injEq] at h
    subst h
    have hc := convertClick_sameCore s
    exact ⟨hc.tracked, hc.indexOK, fun _ hm => by rw [hc.isMouseOverQueueItem]; exact hm⟩
  | dragenter items =>
    simp only [step, Option.some.injEq] at h
    subst h
    have hc := dragenter_sameCore s items
    exact ⟨hc.tracked, hc.indexOK, fun _ hm => by rw [hc.isMouseOverQueueItem]; exact hm⟩
  | dragleave =>
    simp only [step, Option.some.injEq] at h
    subst h
    have hc := dragleave_sameCore s
    exact ⟨hc.tracked, hc.indexOK, fun _ hm => by rw [hc.isMouseOverQueueItem]; exact hm⟩
  | dragover =>
    simp only [step, Option.some.injEq] at h
    subst h
    exact ⟨id, id, fun _ hm => hm⟩
  | keydown key =>
    simp only [step, Option.some.injEq] at h
    subst h
    have hc := keydown_sameCore s key
    exact ⟨hc.tracked, hc.indexOK, fun _ hm => by rw [hc.isMouseOverQueueItem]; exact hm⟩
  | drop dropped =>
    simp only [step, drop] at h
    by_cases hd : 0 < dropped.length
    · by_cases hv : 0 < (validFiles dropped).length
      · simp only [hd, hv, if_true, dite_true] at h
        obtain ⟨h1, h2, h3⟩ := enqueue_inv _ s1 _ hv h
        exact ⟨fun ht => h1 ht, fun _ => h2, fun _ hm => by rw [h3]; exact hm⟩
      · simp only [hd, hv, if_true, dite_false, Option.some.injEq] at h
        subst h
        exact ⟨id, id, fun _ hm => hm⟩
    · simp only [hd, if_false, Option.some.injEq] at h
      subst h
      exact ⟨id, id, fun _ hm => hm⟩
  | removeClick i =>
    simp only [step] at h
    by_cases hi : i < s.imageQueue.length
    · simp only [hi, if_true] at h
      obtain ⟨h1, h2, h3⟩ := removeClick_inv s s1 i h
      exact ⟨h1, fun _ => h2, fun _ hm => by rw [h3]; exact hm⟩
    · simp [hi] at h
  | mouseenter i =>
    simp only [step] at h
    obtain ⟨ts, a, r, reads, e, htr⟩ := mouseenter_spec s s1 i h
    subst e
    exact ⟨fun ht => (htr ht).1, id, fun hne => by simp [Event.notMouseenter] at hne⟩
  | mouseleave =>
    simp only [step, Option.some.injEq] at h
    obtain ⟨ts, e, -, htr⟩ := mouseleave_spec s
    rw [e] at h
    subst h
    exact ⟨fun ht => (htr ht).1, id, fun _ _ => rfl⟩
  | timerFire x =>
    obtain ⟨h1, h2, h3⟩ := timerFire_inv s s1 x h
    exact ⟨h1, h2, fun _ => h3⟩
  | readerLoad k =>
    obtain ⟨h1, h2, h3⟩ := readerLoad_inv s s1 k h
    exact ⟨h1, h2, fun _ hm => by rw [h3]; exact hm⟩
  | imageSettled k o =>
    obtain ⟨h1, h2, h3⟩ := imageSettled_inv s s1 k o h
    exact ⟨h1, h2, fun _ hm => by rw [h3]; exact hm⟩
  | nameTyped value =>
    simp only [step, Option.some.injEq] at h
    subst h
    exact ⟨id, id, fun _ hm => hm⟩
  | formatSelected value =>
    simp only [step, Option.some.injEq] at h
    subst h
    exact ⟨id, id, fun _ hm => hm⟩

theorem initial_tracked (dom : Dom) : (initial dom).Tracked where
  pos t ht := by simp [initial] at ht
  le t ht := by simp [initial] at ht
  nodup := by simp [initial]
  advance t ht := by simp [initial] at ht
  resume t ht := by simp [initial] at ht

/-- Every reachable state satisfies the timer invariant and the index invariant. -/
theorem Reachable.inv {s : State} (h : Reachable s) : s.Tracked ∧ s.IndexOK := by
  induction h with
  | init dom => exact ⟨initial_tracked dom, fun h2 => by simp [initial] at h2⟩
  | step e _ hstep ih =>
    obtain ⟨h1, h2, -⟩ := step_inv _ _ e hstep
    exact ⟨h1 ih.1, h2 ih.2⟩

theorem run_reachable {s : State} (hs : Reachable s) :
    ∀ (es : List Event) (s1 : State), run s es = some s1 → Reachable s1 := by
  intro es
  induction es generalizing s with
  | nil =>
    intro s1 h
    simp only [run, Option.some.injEq] at h
    subst h
    exact hs
  | cons e es ih =>
    intro s1 h
    simp only [run] at h
    rcases he : step s e with _ | s2
    · simp [he] at h
    · simp only [he] at h
      exact ih (Reachable.step e hs he) s1 h

theorem run_keeps_pointer_out {s : State} (hm : s.isMouseOverQueueItem = false) :
    ∀ (es : List Event) (s1 : State), (∀ e ∈ es, e.notMouseenter = true) →
      run s es = some s1 → s1.isMouseOverQueueItem = false := by
  intro es
  induction es generalizing s with
  | nil =>
    intro s1 _ h
    simp only [run, Option.some.injEq] at h
    subst h
    exact hm
  | cons e es ih =>
    intro s1 hall h
    simp only [run] at h
    rcases he : step s e with _ | s2
    · simp [he] at h
    · simp only [he] at h
      have h3 := (step_inv s s2 e he).2.2 (hall e (List.mem_cons_self _ _)) hm
      exact ih h3 s1 (fun e1 he1 => hall e1 (List.mem_cons_of_mem _ he1)) h


/-! ## The slideshow -/

theorem twoQueued_run :
    run (initial examplePage) [Event.drop [fileA, fileB]] = some twoQueued := by
  decide

theorem twoQueued_reachable : Reachable twoQueued :=
  run_reachable (Reachable.init examplePage) _ _ twoQueued_run

theorem find_by_handle {ts : List Timer} (hn : (ts.map Timer.handle).Nodup) {t : Timer}
    (ht : t ∈ ts) : ts.find? (fun u => u.handle == t.handle) = some t := by
  induction ts with
  | nil => simp at ht
  | cons u ts ih =>
    rw [List.map_cons, List.nodup_cons] at hn
    by_cases hu : u.handle = t.handle
    · have htu : t = u := by
        rcases List.mem_cons.mp ht with h | h
        · exact h
        · exact absurd (hu ▸ List.mem_map_of_mem Timer.handle h) hn.1
      subst htu
      simp
    · have hne : t ≠ u := fun h => hu (by rw [h])
      have hmem : t ∈ ts := by
        rcases List.mem_cons.mp ht with h | h
        · exact absurd h hne
        · exact h
      simp [List.find?_cons, hu, ih hn.2 hmem]

/-- What `startSlideshow` establishes when the live timers are tracked. -/
theorem startSlideshow_of_tracked (s0 : State) (ht0 : s0.Tracked) :
    ∃ s1, startSlideshow s0 = some s1 ∧
      s1.imageQueue = s0.imageQueue ∧
      (s0.imageQueue.length = 0 →
        s1.dom.imgPreviewSrc = Src.empty ∧ s1.dom.imgPreviewDisplay = js "none" ∧
        s1.advanceTimers = []) ∧
      (∀ file, s0.imageQueue = [file] →
        s1.pendingReads = s0.pendingReads ++ [Read.preview file false] ∧
        s1.advanceTimers = []) ∧
      (2 ≤ s0.imageQueue.length →
        s1.slideshowIndex = 0 ∧
        ∃ h, s1.slideshowInterval = some h ∧
          s1.advanceTimers = [{ handle := h, kind := TimerKind.advance, delay := 2000 }]) := by
  obtain ⟨ts, a, n, idx, reads, dom, e, htr, hidx, -, hdom, hreads⟩ := startSlideshow_spec s0
  obtain ⟨-, hle, hge⟩ := htr ht0
  refine ⟨_, e, rfl, ?_, ?_, ?_⟩
  · intro h0
    have hq : s0.imageQueue = [] := List.length_eq_zero.mp h0
    exact ⟨(hdom hq).1, (hdom hq).2, hle (by omega)⟩
  · intro file hq
    exact ⟨hreads file hq, hle (by simp [hq])⟩
  · intro h2
    exact ⟨hidx h2, hge h2⟩

/-- Claim C7. Let `s` be a reachable state and `s0` the state in which
`startSlideshow` is called: `s` itself, or `s` part-way through a handler, with
the queue, the DOM and the pending reads rewritten and some timers gone.  Then
`startSlideshow` returns, and right after it: with an empty queue the preview is
hidden with an empty source and no advance timer is live; with one item a
non-fading preview of item 0 is requested and no advance timer is live; with two
or more items `slideshowIndex` is 0 and exactly one advance timer is live, with
a period of 2000 ms, named by `slideshowInterval`. -/
theorem startSlideshow_timers (s s0 : State) (hs : Reachable s)
    (htimers : s0.timers.Sublist s.timers) (hlast : s0.lastHandle = s.lastHandle)
    (hint : s0.slideshowInterval = s.slideshowInterval)
    (hres : s0.slideshowResumeTimeout = s.slideshowResumeTimeout) :
    ∃ s1, startSlideshow s0 = some s1 ∧
      s1.imageQueue = s0.imageQueue ∧
      (s0.imageQueue.length = 0 →
        s1.dom.imgPreviewSrc = Src.empty ∧ s1.dom.imgPreviewDisplay = js "none" ∧
        s1.advanceTimers = []) ∧
      (∀ file, s0.imageQueue = [file] →
        s1.pendingReads = s0.pendingReads ++ [Read.preview file false] ∧
        s1.advanceTimers = []) ∧
      (2 ≤ s0.imageQueue.length →
        s1.slideshowIndex = 0 ∧
        ∃ h, s1.slideshowInterval = some h ∧
          s1.advanceTimers = [{ handle := h, kind := TimerKind.advance, delay := 2000 }]) := by
  apply startSlideshow_of_tracked
  unfold State.Tracked
  rw [hlast, hint, hres]
  exact TimersTracked.of_sublist hs.inv.1 htimers (Or.inl rfl) (Or.inl rfl)

/-- On the two-item queue of `twoQueued`, whose cycle is already running,
`startSlideshow` leaves exactly one advance timer. -/
theorem startSlideshow_timers_witness :
    ∃ s1, startSlideshow twoQueued = some s1 ∧
      s1.slideshowIndex = 0 ∧
      ∃ h, s1.slideshowInterval = some h ∧
        s1.advanceTimers = [{ handle := h, kind := TimerKind.advance, delay := 2000 }] := by
  obtain ⟨s1, e, -, -, -, h2⟩ := startSlideshow_timers twoQueued twoQueued twoQueued_reachable
    (List.Sublist.refl _) rfl rfl rfl
  exact ⟨s1, e, h2 (by decide)⟩

/-- Claim C8. From every reachable state: after the pointer enters a queue
entry no advance timer and no resume timer is live; after it leaves an entry
exactly one resume timer is live, of 2000 ms, named by `slideshowResumeTimeout`;
if that timer is still pending after any events none of which is a
pointer-enter, its firing runs `startSlideshow`, which for a queue of two or
more items puts the index at 0 under exactly one advance timer; and a
pointer-enter before it fires leaves it cancelled. -/
theorem hover_pauses_and_resumes (s : State) (hs : Reachable s) :
    (∀ i, i < s.imageQueue.length →
      ∃ s1, mouseenter s i = some s1 ∧ s1.advanceTimers = [] ∧ s1.resumeTimers = []) ∧
    (∃ h, (mouseleave s).slideshowResumeTimeout = some h ∧
      (mouseleave s).resumeTimers = [{ handle := h, kind := TimerKind.resume, delay := 2000 }] ∧
      (∀ es s2, (∀ e ∈ es, e.notMouseenter = true) → run (mouseleave s) es = some s2 →
        { handle := h, kind := TimerKind.resume, delay := 2000 } ∈ s2.timers →
        timerFire s2 h = startSlideshow (clearTimer s2 (some h)) ∧
        ∃ s3, timerFire s2 h = some s3 ∧
          (2 ≤ s2.imageQueue.length →
            s3.slideshowIndex = 0 ∧
            ∃ h1, s3.slideshowInterval = some h1 ∧
              s3.advanceTimers =
                [{ handle := h1, kind := TimerKind.advance, delay := 2000 }])) ∧
      (∀ es s2 i, run (mouseleave s) es = some s2 → i < s2.imageQueue.length →
        ∃ s3, mouseenter s2 i = some s3 ∧
          { handle := h, kind := TimerKind.resume, delay := 2000 } ∉ s3.timers)) := by
  have enter : ∀ (u : State), Reachable u → ∀ i, i < u.imageQueue.length →
      ∃ u1, mouseenter u i = some u1 ∧ u1.advanceTimers = [] ∧ u1.resumeTimers = [] := by
    intro u hu i hi
    obtain ⟨u1, h⟩ := mouseenter_total u i hi
    obtain ⟨ts, a, r, reads, e, htr⟩ := mouseenter_spec u u1 i h
    obtain ⟨-, h1, h2⟩ := htr hu.inv.1
    subst e
    exact ⟨_, h, filter_isAdvance_eq_nil h1, filter_isResume_eq_nil h2⟩
  have hleave : Reachable (mouseleave s) := Reachable.step Event.mouseleave hs rfl
  refine ⟨enter s hs, s.lastHandle + 1, ?_, ?_, ?_, ?_⟩
  · obtain ⟨ts, e, -⟩ := mouseleave_spec s
    rw [e]
  · obtain ⟨ts, e, -, htr⟩ := mouseleave_spec s
    rw [e]
    show List.filter Timer.isResume (ts ++ _) = _
    rw [List.filter_append, filter_isResume_eq_nil (htr hs.inv.1).2]
    simp [Timer.isResume]
  · intro es s2 hes hrun hlive
    have hr2 : Reachable s2 := run_reachable hleave es s2 hrun
    have hout : s2.isMouseOverQueueItem = false := by
      refine run_keeps_pointer_out ?_ es s2 hes hrun
      obtain ⟨ts, e, -⟩ := mouseleave_spec s
      rw [e]
    have hfind := find_by_handle hr2.inv.1.nodup hlive
    have hfire : timerFire s2 (s.lastHandle + 1) =
        startSlideshow (clearTimer s2 (some (s.lastHandle + 1))) := by
      have hout1 : (clearTimer s2 (some (s.lastHandle + 1))).isMouseOverQueueItem = false :=
        hout
      simp only [timerFire, hfind, resumeCallback, hout1, Bool.not_false, if_true]
    refine ⟨hfire, ?_⟩
    obtain ⟨s3, e3, -, -, -, h2⟩ := startSlideshow_of_tracked
      (clearTimer s2 (some (s.lastHandle + 1))) (clearTimer_tracked s2 _ hr2.inv.1)
    exact ⟨s3, hfire.trans e3, h2⟩
  · intro es s2 i hrun hi
    have hr2 : Reachable s2 := run_reachable hleave es s2 hrun
    obtain ⟨s3, henter, -, hnone⟩ := enter s2 hr2 i hi
    refine ⟨s3, henter, fun hmem => ?_⟩
    have : ({ handle := s.lastHandle + 1, kind := TimerKind.resume, delay := 2000 } : Timer) ∈
        s3.resumeTimers := List.mem_filter.mpr ⟨hmem, by simp [Timer.isResume]⟩
    rw [hnone] at this
    simp at this

/-- From `twoQueued`: the pointer enters entry 1 and every timer is cancelled;
the pointer leaves, and the resume timer 2 that this sets restarts the cycle at
index 0 when it fires. -/
theorem hover_pauses_and_resumes_witness :
    (∃ s1, mouseenter twoQueued 1 = some s1 ∧ s1.advanceTimers = [] ∧ s1.resumeTimers = []) ∧
    (mouseleave twoQueued).resumeTimers =
      [{ handle := 2, kind := TimerKind.resume, delay := 2000 }] ∧
    (∃ s3, timerFire (mouseleave twoQueued) 2 = some s3 ∧ s3.slideshowIndex = 0) := by
  obtain ⟨h1, h, hh, hres, hfire, -⟩ := hover_pauses_and_resumes twoQueued twoQueued_reachable
  have hh2 : h = 2 := by
    have e : (mouseleave twoQueued).slideshowResumeTimeout = some 2 := by decide
    rw [e] at hh
    exact (Option.some.inj hh).symm
  subst hh2
  refine ⟨h1 1 (by decide), hres, ?_⟩
  · obtain ⟨-, s3, e3, h3⟩ := hfire [] (mouseleave twoQueued) (by simp) rfl (by decide)
    exact ⟨s3, e3, (h3 (by decide)).1⟩

/-- Claim C10 (amended). In every reachable state whose queue has at least two
items, `0 ≤ slideshowIndex < imageQueue.length`; and each tick of a live advance
timer on a queue of length `n ≥ 2` moves the index to `(slideshowIndex + 1) mod n`
and leaves the queue as it is. -/
theorem slideshowIndex_in_range (s : State) (hs : Reachable s)
    (hn : 2 ≤ s.imageQueue.length) :
    s.slideshowIndex < s.imageQueue.length ∧
    (∀ t ∈ s.timers, t.kind = TimerKind.advance →
      ∃ s1, timerFire s t.handle = some s1 ∧
        s1.slideshowIndex = (s.slideshowIndex + 1) % s.imageQueue.length ∧
        s1.imageQueue = s.imageQueue) := by
  refine ⟨hs.inv.2 hn, ?_⟩
  intro t ht hk
  have hfind := find_by_handle hs.inv.1.nodup ht
  obtain ⟨ts, a, idx, reads, e, -, hidx, -⟩ := slideshowTick_spec s
  refine ⟨{ s with
    timers := ts, slideshowInterval := a, slideshowIndex := idx, pendingReads := reads },
    ?_, hidx hn, rfl⟩
  simp only [timerFire, hfind, hk]
  exact e

/-- From `twoQueued` (index 0, two items) the tick of timer 1 moves the index to 1. -/
theorem slideshowIndex_in_range_witness :
    twoQueued.slideshowIndex < twoQueued.imageQueue.length ∧
    ∃ s1, timerFire twoQueued 1 = some s1 ∧ s1.slideshowIndex = 1 := by
  obtain ⟨h1, h2⟩ := slideshowIndex_in_range twoQueued twoQueued_reachable (by decide)
  obtain ⟨s1, e, hidx, -⟩ := h2 { handle := 1, kind := TimerKind.advance, delay := 2000 }
    (by decide) rfl
  exact ⟨h1, s1, e, hidx⟩

/-- Claim C10 as stated fails: drop `a.png` and `b.jpg`, let the advance timer
tick once (index 1), remove entry 0.  The queue is then `[b.jpg]`, non-empty,
and `slideshowIndex` is still 1, outside `[0, 1)`. -/
theorem slideshowIndex_stale_after_shrink :
    ∃ s, run (initial examplePage)
        [Event.drop [fileA, fileB], Event.timerFire 1, Event.removeClick 0] = some s ∧
      Reachable s ∧ s.imageQueue = [fileB] ∧ s.slideshowIndex = 1 ∧
      ¬ s.slideshowIndex < s.imageQueue.length := by
  have hq : (run (initial examplePage)
      [Event.drop [fileA, fileB], Event.timerFire 1, Event.removeClick 0]).map
      (fun s => (s.imageQueue, s.slideshowIndex)) = some ([fileB], 1) := by decide
  rcases h : run (initial examplePage)
      [Event.drop [fileA, fileB], Event.timerFire 1, Event.removeClick 0] with _ | s
  · rw [h] at hq
    simp at hq
  · rw [h] at hq
    simp only [Option.map_some', Option.some.injEq, Prod.mk.injEq] at hq
    refine ⟨s, rfl, run_reachable (Reachable.init examplePage) _ _ h, hq.1, hq.2, ?_⟩
    rw [hq.1, hq.2]
    decide


/-! ## Conversion, on the controller -/

theorem pendingIndex_spec (R : List ConvTask) (hn : (R.map ConvTask.idx).Nodup)
    (t : ConvTask) (ht : t ∈ R) :
    ∃ k, pendingIndex R t.idx = some k ∧ R[k]? = some t ∧
      R.eraseIdx k = R.filter (fun u => decide (u.idx ≠ t.idx)) := by
  induction R with
  | nil => simp at ht
  | cons u R ih =>
    rw [List.map_cons, List.nodup_cons] at hn
    by_cases hu : u.idx = t.idx
    · have htu : t = u := by
        rcases List.mem_cons.mp ht with h | h
        · exact h
        · exact absurd (hu ▸ List.mem_map_of_mem ConvTask.idx h) hn.1
      subst htu
      refine ⟨0, by simp [pendingIndex], by simp, ?_⟩
      have hall : R.filter (fun u => decide (u.idx ≠ t.idx)) = R := by
        rw [List.filter_eq_self]
        intro v hv
        have : v.idx ≠ t.idx := fun h => hn.1 (h ▸ List.mem_map_of_mem ConvTask.idx hv)
        simpa using this
      rw [List.eraseIdx_cons_zero, List.filter_cons_of_neg (by simp), hall]
    · have hmem : t ∈ R := by
        rcases List.mem_cons.mp ht with h | h
        · exact absurd (by rw [h]) hu
        · exact h
      obtain ⟨k, hk, hget, her⟩ := ih hn.2 hmem
      refine ⟨k + 1, by simp [pendingIndex, hu, hk], by simpa using hget, ?_⟩
      rw [List.eraseIdx_cons_succ, her, List.filter_cons_of_pos (by simpa using hu)]

theorem imageSettled_effects (s : State) (k : Nat) (t : ConvTask) (o : Outcome)
    (hk : s.conversions[k]? = some t) :
    ∃ ts n,
      imageSettled s k o = some { s with
        conversions := s.conversions.eraseIdx k
        alerts := s.alerts ++ alertsOf (t.settle o)
        downloads := s.downloads ++ downloadsOf (t.settle o)
        timers := ts
        lastHandle := n } := by
  unfold imageSettled
  rcases o with _ | _ | b
  · exact ⟨s.timers, s.lastHandle, by
      simp [hk, alert, ConvTask.settle, ConvTask.onError, alertsOf, downloadsOf]⟩
  · exact ⟨s.timers, s.lastHandle, by
      simp [hk, ConvTask.settle, ConvTask.onBlob, alertsOf, downloadsOf]⟩
  · exact ⟨_, _, by
      simp [hk, setTimer, ConvTask.settle, ConvTask.onBlob, alertsOf, downloadsOf]
      exact ⟨rfl, rfl⟩⟩

theorem alertsOf_append (a b : List Effect) : alertsOf (a ++ b) = alertsOf a ++ alertsOf b := by
  simp [alertsOf]

theorem downloadsOf_append (a b : List Effect) :
    downloadsOf (a ++ b) = downloadsOf a ++ downloadsOf b := by
  simp [downloadsOf]

/-- Settling the positions of `order` one after the other appends, to the alerts
and the downloads of the state, what each pipeline produces, and takes exactly
those conversions out of the pending ones. -/
theorem settleInOrder_spec (outcome : Nat → Outcome) (eff : Nat → List Effect)
    (old : List ConvTask) :
    ∀ (order : List Nat) (R : List ConvTask) (s : State),
      s.conversions = old ++ R → (R.map ConvTask.idx).Nodup → order.Nodup →
      (∀ i ∈ order, ∃ t ∈ R, t.idx = i) →
      (∀ t ∈ R, t.settle (outcome t.idx) = eff t.idx) →
      ∃ s2, settleInOrder outcome old.length s order = some s2 ∧
        s2.conversions = old ++ R.filter (fun t => decide (t.idx ∉ order)) ∧
        s2.alerts = s.alerts ++ alertsOf (order.flatMap eff) ∧
        s2.downloads = s.downloads ++ downloadsOf (order.flatMap eff) := by
  intro order
  induction order with
  | nil =>
    intro R s hc _ _ _ _
    refine ⟨s, rfl, ?_, ?_, ?_⟩
    · simp [hc]
    · simp [alertsOf]
    · simp [downloadsOf]
  | cons i order ih =>
    intro R s hc hn ho hex heff
    obtain ⟨t, ht, hti⟩ := hex i (List.mem_cons_self _ _)
    obtain ⟨k, hk, hget, her⟩ := pendingIndex_spec R hn t ht
    rw [hti] at hk her
    have hpend : s.conversions[old.length + k]? = some t := by
      rw [hc, List.getElem?_append_right (Nat.le_add_right _ _)]
      simpa using hget
    obtain ⟨ts, n, hset⟩ := imageSettled_effects s (old.length + k) t (outcome i) hpend
    have herase : s.conversions.eraseIdx (old.length + k) =
        old ++ R.filter (fun u => decide (u.idx ≠ i)) := by
      rw [hc, List.eraseIdx_append_of_length_le (Nat.le_add_right _ _), Nat.add_sub_cancel_left,
        her]
    rw [herase] at hset
    rw [List.nodup_cons] at ho
    have hsub : (R.filter (fun u => decide (u.idx ≠ i))).Sublist R := List.filter_sublist _
    obtain ⟨s2, hrun, hconv, hal, hdl⟩ := ih (R.filter (fun u => decide (u.idx ≠ i)))
      { s with
        conversions := old ++ R.filter (fun u => decide (u.idx ≠ i))
        alerts := s.alerts ++ alertsOf (t.settle (outcome i))
        downloads := s.downloads ++ downloadsOf (t.settle (outcome i))
        timers := ts
        lastHandle := n }
      rfl (List.Nodup.sublist (hsub.map _) hn) ho.2
      (by
        intro j hj
        obtain ⟨u, hu, huj⟩ := hex j (List.mem_cons_of_mem _ hj)
        refine ⟨u, List.mem_filter.mpr ⟨hu, ?_⟩, huj⟩
        have : j ≠ i := fun h => ho.1 (h ▸ hj)
        simpa [huj] using this)
      (fun u hu => heff u (hsub.subset hu))
    have hstep : settleItem outcome old.length s i = some
        { s with
          conversions := old ++ R.filter (fun u => decide (u.idx ≠ i))
          alerts := s.alerts ++ alertsOf (t.settle (outcome i))
          downloads := s.downloads ++ downloadsOf (t.settle (outcome i))
          timers := ts
          lastHandle := n } := by
      simp only [settleItem, hc, List.drop_left, hk, step]
      exact hset
    have hefft : t.settle (outcome i) = eff i := by
      have := heff t ht
      rwa [hti] at this
    refine ⟨s2, ?_, ?_, ?_, ?_⟩
    · simp only [settleInOrder, hstep]
      exact hrun
    · rw [hconv, List.filter_filter]
      congr 1
      apply List.filter_congr
      intro u _
      by_cases h1 : u.idx = i <;> by_cases h2 : u.idx ∈ order <;>
        simp [List.mem_cons, h1, h2]
    · rw [hal, List.flatMap_cons, alertsOf_append, hefft, List.append_assoc]
    · rw [hdl, List.flatMap_cons, downloadsOf_append, hefft, List.append_assoc]

theorem conversionTasks_idx (queue : List File) (format template : JSString) :
    (conversionTasks queue format template).map ConvTask.idx = List.range queue.length := by
  apply List.ext_getElem?
  intro n
  rw [List.getElem?_map, conversionTasks_getElem?]
  by_cases h : n < queue.length
  · simp [List.getElem?_eq_getElem h, List.getElem?_range h]
  · have h1 : queue[n]? = none := List.getElem?_eq_none (by omega)
    have h2 : (List.range queue.length)[n]? = none :=
      List.getElem?_eq_none (by simp; omega)
    simp [h1, h2]

theorem conversionTasks_settle (queue : List File) (format template : JSString)
    (outcome : Nat → Outcome) (t : ConvTask) (ht : t ∈ conversionTasks queue format template) :
    t.settle (outcome t.idx) =
      (match outcome t.idx with
        | .decodeError =>
          [Effect.alert
            (js "Error: The image with ID " ++ numToString (t.idx + 1) ++ js " is invalid.")]
        | .decoded none => []
        | .decoded (some _) =>
          [Effect.download
            (nameBaseOf template ++ js "_" ++ numToString (t.idx + 1) ++ js "." ++ format)]) := by
  obtain ⟨n, hn⟩ := List.mem_iff_getElem?.mp ht
  rw [conversionTasks_getElem?] at hn
  rcases hq : queue[n]? with _ | file
  · simp [hq] at hn
  · simp only [hq, Option.map_some', Option.some.injEq] at hn
    subst hn
    rcases outcome n with _ | _ | _ <;>
      simp [ConvTask.settle, ConvTask.onError, ConvTask.onBlob, ConvTask.errorMessage,
        ConvTask.downloadName, ConvTask.extension]

/-- Claim C5. From every controller state, for every assignment of outcomes to
the queued items and every order in which their pipelines end: the conversions
started by `convertAllImages` can all be settled in that order, and they add to
the alerts of the page exactly one alert for each item whose decode fails,
naming its 1-based position, and to its downloads exactly one
`<base>_<position>.<format>` for each item whose decode and encode succeed.
Nothing else is alerted or downloaded, so a failure never suppresses or alters
the download of another item; conversions pending from before stay pending. -/
theorem convertAllImages_failures_isolated (s : State) (outcome : Nat → Outcome)
    (order : List Nat) (horder : order.Perm (List.range s.imageQueue.length)) :
    ∃ s2 alerted downloaded,
      settleInOrder outcome s.conversions.length (convertAllImages s) order = some s2 ∧
      s2.conversions = s.conversions ∧
      s2.alerts = s.alerts ++ alerted ∧
      s2.downloads = s.downloads ++ downloaded ∧
      alerted.Perm
        (((List.range s.imageQueue.length).filter (fun i => (outcome i).decodeFailed)).map
          (fun i => js "Error: The image with ID " ++ numToString (i + 1) ++ js " is invalid.")) ∧
      downloaded.Perm
        (((List.range s.imageQueue.length).filter (fun i => (outcome i).succeeded)).map
          (fun i =>
            nameBaseOf s.dom.nameInputValue ++ js "_" ++ numToString (i + 1) ++ js "." ++
              s.dom.formatValue)) := by
  have hidx := conversionTasks_idx s.imageQueue s.dom.formatValue s.dom.nameInputValue
  have hmem : ∀ i ∈ order, i < s.imageQueue.length := fun i hi =>
    List.mem_range.mp ((List.Perm.mem_iff horder).mp hi)
  obtain ⟨s2, hrun, hconv, hal, hdl⟩ := settleInOrder_spec outcome
    (fun i =>
      match outcome i with
      | .decodeError =>
        [Effect.alert (js "Error: The image with ID " ++ numToString (i + 1) ++ js " is invalid.")]
      | .decoded none => []
      | .decoded (some _) =>
        [Effect.download
          (nameBaseOf s.dom.nameInputValue ++ js "_" ++ numToString (i + 1) ++ js "." ++
            s.dom.formatValue)])
    s.conversions order
    (conversionTasks s.imageQueue s.dom.formatValue s.dom.nameInputValue) (convertAllImages s)
    rfl (by rw [hidx]; exact List.nodup_range _)
    ((List.Perm.nodup_iff horder).mpr (List.nodup_range _))
    (by
      intro i hi
      have hlt := hmem i hi
      refine ⟨(⟨s.imageQueue[i], i, s.dom.formatValue,
        nameBaseOf s.dom.nameInputValue⟩ : ConvTask), List.mem_iff_getElem?.mpr ⟨i, ?_⟩, rfl⟩
      rw [conversionTasks_getElem?, List.getElem?_eq_getElem hlt]
      rfl)
    (conversionTasks_settle s.imageQueue s.dom.formatValue s.dom.nameInputValue outcome)
  have hpure := runConversions_eq s.imageQueue s.dom.formatValue s.dom.nameInputValue outcome
    order hmem
  rw [← hpure] at hal hdl
  obtain ⟨hpa, hpd⟩ := effects_by_position s.imageQueue s.dom.formatValue
    s.dom.nameInputValue outcome order horder
  refine ⟨s2, _, _, hrun, ?_, hal, hdl, hpa, hpd⟩
  rw [hconv]
  have hnil : (conversionTasks s.imageQueue s.dom.formatValue s.dom.nameInputValue).filter
      (fun t => decide (t.idx ∉ order)) = [] := by
    rw [List.filter_eq_nil_iff]
    intro t ht
    have : t.idx ∈ List.range s.imageQueue.length := by
      rw [← hidx]
      exact List.mem_map_of_mem ConvTask.idx ht
    simpa using (List.Perm.mem_iff horder).mpr this
  rw [hnil, List.append_nil]

/-- The scenario of the specification: `corrupt.png` and `b.jpg` are queued on
the example page, the decode of the first fails, and the pipeline of the second
ends first. -/
theorem convertAllImages_failures_isolated_witness :
    ∃ s2,
      settleInOrder (fun i => if i = 0 then Outcome.decodeError else Outcome.decoded (some 0)) 0
        (convertAllImages
          { initial examplePage with
            imageQueue :=
              [{ name := js "corrupt.png", type := js "image/png", blob := 5 }, fileB] })
        [1, 0] = some s2 ∧
      s2.alerts = [js "Error: The image with ID 1 is invalid."] ∧
      s2.downloads = [js "ConvertedImage_2.png"] := by
  obtain ⟨s2, alerted, downloaded, hrun, -, hal, hdl, hpa, hpd⟩ :=
    convertAllImages_failures_isolated
      { initial examplePage with
        imageQueue := [{ name := js "corrupt.png", type := js "image/png", blob := 5 }, fileB] }
      (fun i => if i = 0 then Outcome.decodeError else Outcome.decoded (some 0))
      [1, 0] (by decide)
  refine ⟨s2, hrun, ?_, ?_⟩
  · rw [hal, List.perm_singleton.mp hpa]
    rfl
  · rw [hdl, List.perm_singleton.mp hpd]
    rfl


/-! ## The label of a queue entry -/

theorem htmlText_of_plain (m : JSString) (h : ∀ c ∈ m, c ≠ 0 ∧ c ≠ 13 ∧ c ≠ 38 ∧ c ≠ 60) :
    htmlText m = some m := by
  induction m with
  | nil => rfl
  | cons c rest ih =>
    have hc := h c (List.mem_cons_self _ _)
    have hr := ih (fun d hd => h d (List.mem_cons_of_mem _ hd))
    unfold htmlText
    split
    · simp at *
    · rename_i heq
      simp at heq
      omega
    · rename_i c1 rest1 _ heq
      simp at heq
      obtain ⟨rfl, rfl⟩ := heq
      simp [hc, hr]

theorem digitChar_mod (n : Nat) :
    48 ≤ (Nat.digitChar (n % 10)).toNat ∧ (Nat.digitChar (n % 10)).toNat ≤ 57 := by
  have h : n % 10 < 10 := Nat.mod_lt _ (by decide)
  interval_cases (n % 10) <;> decide

theorem toDigitsCore_digits (fuel : Nat) :
    ∀ (n : Nat) (ds : List Char), (∀ c ∈ ds, 48 ≤ c.toNat ∧ c.toNat ≤ 57) →
      ∀ c ∈ Nat.toDigitsCore 10 fuel n ds, 48 ≤ c.toNat ∧ c.toNat ≤ 57 := by
  induction fuel with
  | zero => intro n ds h; simpa [Nat.toDigitsCore] using h
  | succ fuel ih =>
    intro n ds h
    have hd : ∀ c ∈ Nat.digitChar (n % 10) :: ds, 48 ≤ c.toNat ∧ c.toNat ≤ 57 := by
      intro c hc
      rcases List.mem_cons.mp hc with rfl | hc
      · exact digitChar_mod n
      · exact h c hc
    unfold Nat.toDigitsCore
    simp only
    split_ifs
    · exact hd
    · exact ih _ _ hd

/-- The decimal rendering of a number consists of the digits `0` to `9`. -/
theorem numToString_digits (n : Nat) : ∀ c ∈ numToString n, 48 ≤ c ∧ c ≤ 57 := by
  intro c hc
  unfold numToString at hc
  obtain ⟨ch, hch, rfl⟩ := List.mem_map.mp hc
  have hmem : ch ∈ Nat.toDigitsCore 10 (n + 1) n [] := by
    simpa [Nat.repr, Nat.toDigits, List.asString] using hch
  exact toDigitsCore_digits (n + 1) n [] (by simp) ch hmem

theorem displayFilename_plain (name : JSString) (h : ∀ c ∈ name, plainInMarkup c = true) :
    ∀ c ∈ displayFilename name, plainInMarkup c = true := by
  intro c hc
  by_cases hlen : name.length ≤ 35
  · rw [(displayFilename_spec name).1 hlen] at hc
    exact h c hc
  · rw [((displayFilename_spec name).2.1 (by omega)).1] at hc
    rcases List.mem_append.mp hc with hc | hc
    · rcases List.mem_append.mp hc with hc | hc
      · exact h c (List.mem_of_mem_take hc)
      · have : c = 46 := by
          have hdots : js "..." = [46, 46, 46] := by decide
          rw [hdots] at hc
          simpa using hc
        subst this
        decide
    · exact h c (List.mem_of_mem_drop hc)

/-- The markup of an entry whose file name is plain is displayed as it is written. -/
theorem displayedLabel_updateQueue (s : State) (i : Nat) (file : File)
    (hfile : s.imageQueue[i]? = some file)
    (hplain : ∀ c ∈ file.name, plainInMarkup c = true) :
    displayedLabel (updateQueue s) i =
      some (numToString (i + 1) ++ js ". " ++ displayFilename file.name) := by
  have hentry : (updateQueue s).dom.queueEntries[i]? = some (entryLabel i file) := by
    simp [updateQueue, List.getElem?_mapIdx, hfile]
  unfold displayedLabel
  rw [hentry]
  show htmlText (entryLabel i file) = _
  unfold entryLabel
  apply htmlText_of_plain
  intro c hc
  have hp : plainInMarkup c = true := by
    rcases List.mem_append.mp hc with hc | hc
    · rcases List.mem_append.mp hc with hc | hc
      · have := numToString_digits (i + 1) c hc
        simp only [plainInMarkup, Bool.and_eq_true, bne_iff_ne]
        omega
      · have hsep : js ". " = [46, 32] := by decide
        rw [hsep] at hc
        simp at hc
        rcases hc with rfl | rfl <;> decide
    · exact displayFilename_plain file.name hplain c hc
  simp only [plainInMarkup, Bool.and_eq_true, bne_iff_ne] at hp
  omega

/-- Claim C9 (amended). For every queue entry whose file name contains none of
the code units that mean something in the markup of the entry (NUL, CR, `"`,
`&`, `<`), the label that `updateQueue` displays is the entry's 1-based position
and `. ` followed by the file name itself when the name has at most 35 UTF-16
code units, and followed by the first 16 code units of the name, then `...`,
then its last 16 code units when the name is longer: 35 code units in all. -/
theorem updateQueue_displayed_label (s : State) (i : Nat) (file : File)
    (hfile : s.imageQueue[i]? = some file)
    (hplain : ∀ c ∈ file.name, plainInMarkup c = true) :
    (file.name.length ≤ 35 →
      displayedLabel (updateQueue s) i = some (numToString (i + 1) ++ js ". " ++ file.name)) ∧
    (35 < file.name.length →
      displayedLabel (updateQueue s) i =
        some (numToString (i + 1) ++ js ". " ++
          (file.name.take 16 ++ js "..." ++ file.name.drop (file.name.length - 16))) ∧
      (file.name.take 16 ++ js "..." ++ file.name.drop (file.name.length - 16)).length = 35) := by
  have hlabel := displayedLabel_updateQueue s i file hfile hplain
  constructor
  · intro hlen
    rw [hlabel, (displayFilename_spec file.name).1 hlen]
  · intro hlen
    obtain ⟨e, l⟩ := (displayFilename_spec file.name).2.1 hlen
    rw [hlabel, e]
    exact ⟨rfl, e ▸ l⟩

/-- The second entry of the queue `[a.png, <40-unit name>]` is displayed with its
position and the shortened name. -/
theorem updateQueue_displayed_label_witness :
    displayedLabel (updateQueue { initial examplePage with imageQueue := [fileA, fileLong] }) 1 =
      some (js "2. abcdefghijklmnop...yz0123456789.png") := by
  have h := (updateQueue_displayed_label
    { initial examplePage with imageQueue := [fileA, fileLong] } 1 fileLong rfl
    (by decide)).2 (by decide)
  rw [h.1]
  decide

/-- Claim C9 as stated fails.  The label displayed for `a.png` at position 0 is
`1. a.png`, the name after its position.  The file name `a&amp;b.png` has eleven
code units, yet its label shows the name `a&b.png`: the name is interpolated
without escaping and parsed as HTML.  And a name of 22 characters that takes 40
code units is shortened. -/
theorem updateQueue_label_is_parsed_markup :
    displayedLabel (updateQueue { initial examplePage with imageQueue := [fileA] }) 0 =
      some (js "1. a.png") ∧
    fileAmp.name.length = 11 ∧
    displayedLabel (updateQueue { initial examplePage with imageQueue := [fileAmp] }) 0 =
      some (js "1. a&b.png") ∧
    js "1. a&b.png" ≠ js "1. " ++ fileAmp.name ∧
    ("😀😀😀😀😀😀😀😀😀😀😀😀😀😀😀😀😀😀.png" : String).length = 22 ∧
    displayedLabel (updateQueue { initial examplePage with imageQueue := [fileAstral] }) 0 =
      some (js "1. 😀😀😀😀😀😀😀😀...😀😀😀😀😀😀.png") := by
  decide


end ImageConverter
